import Mathlib

/-!
Verification of the tablet-use report pipeline (`src/app.py`).

The program is a single-pass pandas pipeline: it reads a CSV, normalizes
the `Device Orders` labels, coerces `Base` amounts to numbers, groups by
`Staff Customer`, derives a handheld-use percentage per staff member and
overall, sorts the per-staff rows by percentage descending, appends an
`Overall Total` summary row, and exports the result as CSV.

Modelling conventions:
* pandas float64 values are modelled as exact rationals (`ℚ`);
  `np.round(x, 2)` and `"%.2f"` formatting are modelled as exact
  round-half-to-even at two decimals (`round2`).
* A missing cell (`NaN`) is modelled as `none`; `pd.to_numeric(errors="coerce")`
  is modelled by carrying the parse result `Option ℚ` in the raw record.
* Python strings are Lean `String`s; Python's code-point-wise lexicographic
  string comparison (used by `groupby(sort=True)`) is `ordLt` on `List Char`.
* `sort_values(..., ascending=False)` is modelled as a descending insertion
  sort (`sortD`).  pandas' default `kind='quicksort'` gives no tie-order
  guarantee, so the universal theorems below assert only the percentage
  order; the model's tie order is one concrete realization — the one pandas
  produces on small frames, where numpy's introsort is a stable insertion
  sort and `nargsort` reverses input and output around it.
* `pd.read_csv`'s column dtype inference is abstracted as the
  `InputFile.deviceNumeric` flag: when every non-missing `Device Orders`
  cell parses as a number (or the column is entirely empty), pandas infers
  a non-string dtype and line 30's `.str` accessor raises.
-/

/-- Characters removed by Python `str.strip()` (ASCII whitespace). -/
def pyWS (c : Char) : Bool :=
  c = ' ' || c = '\t' || c = '\n' || c = '\r' || c = Char.ofNat 11 || c = Char.ofNat 12

/-- Python `str.strip()` on a list of characters. -/
def pyStrip (cs : List Char) : List Char :=
  ((cs.dropWhile pyWS).reverse.dropWhile pyWS).reverse

/-- Python `str.lower()` (ASCII case folding, as used on the ASCII labels here). -/
def pyLower (cs : List Char) : List Char := cs.map Char.toLower

/-- Whether `p` is an initial segment of `s` (used for the regex search). -/
def startsL : List Char → List Char → Bool
  | [], _ => true
  | _ :: _, [] => false
  | a :: ps, b :: ss => a == b && startsL ps ss

/-- `re.search(r"(handheld|pos)", t)` from line 39: scan left to right and at
each position try the alternatives in order; return the first alternative that
matches. -/
def firstMatch : List Char → Option String
  | [] => none
  | c :: cs =>
    if startsL "handheld".toList (c :: cs) then some "handheld"
    else if startsL "pos".toList (c :: cs) then some "pos"
    else firstMatch cs

/-- The `Series.replace` dict of lines 31-36: exact full-value replacement. -/
def applyReplace (t : List Char) : List Char :=
  if t = "handheld".toList then "handheld".toList
  else if t = "hand held".toList then "handheld".toList
  else if t = "pos".toList then "pos".toList
  else if t = "pos terminal".toList then "pos".toList
  else t

/-- `str.extract(r"(handheld|pos)").fillna("unknown")` from line 39. -/
def channelOf (t : List Char) : String :=
  match firstMatch t with
  | some c => c
  | none => "unknown"

/-- Lines 30-39: strip, lower-case, apply the replace dict, then extract
`handheld`/`pos` with fallback `unknown`.  A missing label (`NaN`) stays `NaN`
through the string operations and is filled with `unknown`. -/
def normalizeDevice (d : Option String) : String :=
  match d with
  | none => "unknown"
  | some s => channelOf (applyReplace (pyLower (pyStrip s.toList)))

/-- The channel rule exactly as the specification words it (claim C1): search
the lower-cased, trimmed label for the substrings `handheld` or `pos`, first
match wins, otherwise `unknown`.  No replace dict. -/
def specChannelOf (d : Option String) : String :=
  match d with
  | none => "unknown"
  | some s => channelOf (pyLower (pyStrip s.toList))

/-- The amended channel rule: as `specChannelOf`, except that a label whose
lower-cased trimmed form is exactly `hand held` is classified `handheld`
(this is what the replace dict on lines 31-36 adds to the substring search;
its other three entries are subsumed by the search). -/
def specChannelFixed (d : Option String) : String :=
  match d with
  | none => "unknown"
  | some s =>
    if pyLower (pyStrip s.toList) = "hand held".toList then "handheld"
    else channelOf (pyLower (pyStrip s.toList))

/-- One input row: staff identifier, device-order label, and the result of
`pd.to_numeric(base, errors="coerce")` on the base-amount field (`none` when
the field is missing or fails to parse). -/
structure RawRecord where
  staff : Option String
  device : Option String
  base : Option ℚ
deriving DecidableEq

/-- `.fillna(0)` on the coerced amounts (line 42). -/
def coerceBase (b : Option ℚ) : ℚ := b.getD 0

/-- A normalized row: staff as read, canonical channel, coerced amount. -/
structure NRecord where
  staff : Option String
  channel : String
  amount : ℚ
deriving DecidableEq

/-- Row-wise normalization (lines 30-42). -/
def normalizeRow (r : RawRecord) : NRecord :=
  ⟨r.staff, normalizeDevice r.device, coerceBase r.base⟩

/-- The normalized frame. -/
def nrecords (raws : List RawRecord) : List NRecord := raws.map normalizeRow

/-- Code-point-wise lexicographic comparison of character lists; this is how
Python compares the staff-identifier strings when pandas sorts group keys. -/
def ordLt : List Char → List Char → Bool
  | [], [] => false
  | [], _ :: _ => true
  | _ :: _, [] => false
  | a :: as, b :: bs => if a < b then true else if b < a then false else ordLt as bs

/-- Lexicographic `<` on strings via their character lists. -/
def strLt (a b : String) : Bool := ordLt a.toList b.toList

/-- Stable insertion of a string into an ascending list (skip while smaller). -/
def insStr (x : String) : List String → List String
  | [] => [x]
  | y :: ys => if strLt y x then y :: insStr x ys else x :: y :: ys

/-- Ascending insertion sort on strings; models the ascending key order
produced by `groupby(..., sort=True)` (line 47). -/
def sortStr : List String → List String
  | [] => []
  | x :: xs => insStr x (sortStr xs)

/-- Distinct values of a list (order immaterial: the keys are sorted next). -/
def dedupL : List String → List String
  | [] => []
  | x :: xs => if x ∈ dedupL xs then dedupL xs else x :: dedupL xs

/-- Distinct values in first-encountered order: the order the specification's
tie-break clause asks for (claim C4). -/
def keepFirst : List String → List String
  | [] => []
  | x :: xs => x :: (keepFirst xs).filter (fun y => y != x)

/-- The staff-identifier values present in the frame; rows whose identifier is
missing (`NaN`) carry no value, exactly as `groupby` drops them (line 47). -/
def staffStrings (rs : List NRecord) : List String := rs.filterMap (·.staff)

/-- The group keys of `groupby(["Staff Customer", "Device Orders"]).unstack()`:
the distinct present staff identifiers, in ascending order (line 47). -/
def staffKeys (rs : List NRecord) : List String := sortStr (dedupL (staffStrings rs))

/-- `groupby(...)["Base"].sum()` for one staff identifier and one channel. -/
def sumFor (rs : List NRecord) (k : String) (c : String) : ℚ :=
  ((rs.filter (fun r => r.staff == some k && r.channel == c)).map (·.amount)).sum

/-- Round-half-to-even to an integer (the rounding mode documented for
`np.round`), on exact rationals. -/
def rhe (q : ℚ) : ℤ :=
  if q - ⌊q⌋ < 1/2 then ⌊q⌋
  else if 1/2 < q - ⌊q⌋ then ⌊q⌋ + 1
  else if ⌊q⌋ % 2 = 0 then ⌊q⌋ else ⌊q⌋ + 1

/-- Round-half-to-even at two decimal places: models `np.round(x, 2)` and the
`"%.2f"` / `"{:,.2f}"` formatting of the pipeline on exact rationals. -/
def round2 (q : ℚ) : ℚ := (rhe (q * 100) : ℚ) / 100

/-- The `np.where` expression of lines 58-62 before `.round(2)`. -/
def rawPct (h p : ℚ) : ℚ := if h + p = 0 then 0 else 100 * h / (h + p)

/-- Lines 58-62: the per-staff numeric percentage, rounded to two decimals. -/
def pct2 (h p : ℚ) : ℚ := round2 (rawPct h p)

/-- One row of `grouped_df`: staff identifier, the two raw channel sums, and
the numeric percentage column of lines 58-62. -/
structure StaffSummary where
  staff : String
  handheld : ℚ
  pos : ℚ
  pct : ℚ
deriving DecidableEq

/-- The `grouped_df` row for one staff identifier (lines 47-62).  The
`fill_value=0` of `unstack` and the column guards of lines 50-53 make both
channel sums total functions. -/
def summaryFor (rs : List NRecord) (k : String) : StaffSummary :=
  { staff := k
    handheld := sumFor rs k "handheld"
    pos := sumFor rs k "pos"
    pct := pct2 (sumFor rs k "handheld") (sumFor rs k "pos") }

/-- `grouped_df` (lines 47-62): one row per present staff identifier, keys in
ascending order. -/
def grouped_df (rs : List NRecord) : List StaffSummary :=
  (staffKeys rs).map (summaryFor rs)

/-- Line 70-71: the overall totals are computed by re-parsing the formatted
(2-decimal, comma-separated) strings of lines 65-66, so each per-staff total
contributes its two-decimal rounding. -/
def total_handheld (rs : List NRecord) : ℚ :=
  ((grouped_df rs).map (fun s => round2 s.handheld)).sum

/-- Line 71, as `total_handheld`. -/
def total_pos (rs : List NRecord) : ℚ :=
  ((grouped_df rs).map (fun s => round2 s.pos)).sum

/-- Line 72: the overall percentage, guarded by `> 0` and NOT rounded. -/
def overall_percentage (rs : List NRecord) : ℚ :=
  if 0 < total_handheld rs + total_pos rs then
    100 * total_handheld rs / (total_handheld rs + total_pos rs)
  else 0

/-- Lines 75-81: the summary row. -/
def summary_row (rs : List NRecord) : StaffSummary :=
  ⟨"Overall Total", total_handheld rs, total_pos rs, overall_percentage rs⟩

/-- Line 84: drop any staff row labelled exactly `Overall Total`. -/
def non_summary_df (rs : List NRecord) : List StaffSummary :=
  (grouped_df rs).filter (fun s => s.staff != "Overall Total")

/-- Stable insertion of a row into a descending-by-percentage list (skip
while strictly greater; an earlier-input row stays before equal rows). -/
def insD (x : StaffSummary) : List StaffSummary → List StaffSummary
  | [] => [x]
  | y :: ys => if x.pct < y.pct then y :: insD x ys else x :: y :: ys

/-- Descending sort by the numeric percentage: models
`sort_values(by=..., ascending=False)` (line 85).  The default
`kind='quicksort'` (numpy introsort) is documented non-stable, so the
program guarantees no particular order among equal percentages; this
executable model fixes one concrete tie order (the one pandas realizes on
small frames, where introsort degenerates to a stable insertion sort and
`nargsort`'s double reversal preserves it).  No universal theorem below
depends on the tie order. -/
def sortD : List StaffSummary → List StaffSummary
  | [] => []
  | x :: xs => insD x (sortD xs)

/-- Line 85. -/
def sorted_df (rs : List NRecord) : List StaffSummary := sortD (non_summary_df rs)

/-- Line 86: the final frame, summary row appended last. -/
def final_df (rs : List NRecord) : List StaffSummary := sorted_df rs ++ [summary_row rs]

/-- The channel values of rows that survive the grouping (staff present). -/
def keptChannels (rs : List NRecord) : List String :=
  (rs.filter (fun r => r.staff.isSome)).map (·.channel)

/-- The columns produced by `unstack` (line 47): the distinct channel values,
in sorted order. -/
def presentChannels (rs : List NRecord) : List String :=
  sortStr (dedupL (keptChannels rs))

/-- Lines 50-51: append a `handheld` column when absent. -/
def withHandheld (cols : List String) : List String :=
  if "handheld" ∈ cols then cols else cols ++ ["handheld"]

/-- Lines 52-53: append a `pos` column when absent. -/
def withPos (cols : List String) : List String :=
  if "pos" ∈ cols then cols else cols ++ ["pos"]

/-- The column renames of line 55 composed with those of lines 91-97; any
other channel column (such as `unknown`) keeps its label. -/
def renameDevice (c : String) : String :=
  if c = "handheld" then "Tablet Sales" else if c = "pos" then "POS Sales" else c

/-- The column labels of the exported `final_df` (lines 47-97, 134-135):
`Server` (from `reset_index`), the renamed channel columns, then the two
percentage columns appended on lines 58 and 67. -/
def exportColumns (rs : List NRecord) : List String :=
  "Server" :: ((withPos (withHandheld (presentChannels rs))).map renameDevice
    ++ ["Tablet Use Percentage (Numeric)", "Tablet Use Percentage"])

/-- Line 20: header labels have embedded line breaks replaced by spaces and
surrounding whitespace stripped. -/
def headerCanon (s : String) : String :=
  String.mk (pyStrip (s.toList.map (fun c => if c = '\n' then ' ' else c)))

/-- Lines 23-27: the header rename dict (exact matches). -/
def renameHeader (s : String) : String :=
  if s = "Device Orders Report" then "Device Orders"
  else if s = "Base (Including Disc.)" then "Base"
  else s

/-- An uploaded file: whether `pd.read_csv` succeeds, whether read_csv
inferred a numeric (non-string) dtype for the raw `Device Orders` column —
pandas does so when every non-missing cell of that column parses as a number,
and also when the column is entirely empty — the header labels, and the data
rows. -/
structure InputFile where
  parseOk : Bool
  deviceNumeric : Bool
  headers : List String
  raws : List RawRecord

/-- The canonical header labels after lines 20-27. -/
def canonHeaders (f : InputFile) : List String :=
  f.headers.map (fun h => renameHeader (headerCanon h))

/-- Structural validity: the file parses and the three required columns are
present after header canonicalization. -/
def structValid (f : InputFile) : Bool :=
  f.parseOk && (canonHeaders f).contains "Device Orders"
    && (canonHeaders f).contains "Base" && (canonHeaders f).contains "Staff Customer"

/-- The whole guarded pipeline (lines 13-151): the `try`/`except` wrapper
yields either one error message (`st.error`, line 151) and no report, or the
complete report.  Errors are raised in the order the code reaches them: a
parse failure (line 17), a `KeyError` for a missing `Device Orders` column
(line 30), an `AttributeError` from line 30's `.str` accessor when that
column was inferred numeric, then the `KeyError`s of lines 42 and 47. -/
def runApp (f : InputFile) : Except String (List StaffSummary) :=
  if f.parseOk = false then Except.error "could not parse the uploaded file"
  else if (canonHeaders f).contains "Device Orders" = false then
    Except.error "KeyError: Device Orders"
  else if f.deviceNumeric = true then
    Except.error "AttributeError: can only use .str accessor with string values"
  else if (canonHeaders f).contains "Base" = false then
    Except.error "KeyError: Base"
  else if (canonHeaders f).contains "Staff Customer" = false then
    Except.error "KeyError: Staff Customer"
  else Except.ok (final_df (nrecords f.raws))

/-- Modelled from the spec: re-reading a numeric cell of the CSV export.  The
export formats totals as `"{:,.2f}"`; a magnitude of 1000 or more carries a
thousands separator, which `pd.to_numeric(errors="coerce")` fails to parse.
The repository has no re-ingestion code of its own; this models the spec's
premise of re-running the pipeline on the export. -/
def reingest (q : ℚ) : Option ℚ := if -1000 < q ∧ q < 1000 then some q else none

/-- Modelled from the spec: the claim C9 premise of feeding the export back
"with compatible headers".  The export is wide (one handheld column and one
pos column per row), while the input schema is long, so each exported row is
read back as one `handheld` record and one `pos` record carrying the exported
two-decimal amounts. -/
def exportRecords : List StaffSummary → List RawRecord
  | [] => []
  | row :: rest =>
    ⟨some row.staff, some "handheld", reingest (round2 row.handheld)⟩ ::
    ⟨some row.staff, some "pos", reingest (round2 row.pos)⟩ :: exportRecords rest

/-- Modelled from the spec: the full export of a run, read back as records. -/
def exportOf (rs : List NRecord) : List RawRecord := exportRecords (final_df rs)


/-- Concrete input for claim C2: one staff member with handheld 1 and pos 2. -/
def exC2raw : List RawRecord := [⟨some "A", some "handheld", some 1⟩, ⟨some "A", some "pos", some 2⟩]

/-- Concrete input for claim C3: a handheld amount with more than 2 decimals. -/
def exC3raw : List RawRecord := [⟨some "A", some "handheld", some (1/8)⟩]

/-- Concrete input for claim C4: two staff members with equal (zero) percentages,
encountered in the order Bob, Alice. -/
def exC4raw : List RawRecord :=
  [⟨some "Bob", some "kiosk", some 1⟩, ⟨some "Alice", some "kiosk", some 1⟩]

/-- Concrete input for claim C5: a negative handheld amount. -/
def exC5raw : List RawRecord := [⟨some "A", some "handheld", some (-1)⟩, ⟨some "A", some "pos", some 2⟩]

/-- Concrete input for claim C6: a staff member named like the sentinel label,
plus a row with a missing staff identifier. -/
def exC6raw : List RawRecord :=
  [⟨some "Overall Total", some "handheld", some 5⟩, ⟨none, some "pos", some 3⟩]

/-- Concrete input for claim C9: a per-staff handheld total (1/8) that is not
exactly representable with two decimals. -/
def exC9raw : List RawRecord := [⟨some "A", some "handheld", some (1/8)⟩, ⟨some "A", some "pos", some 1⟩]

/-- Concrete input for the claim C9 witness: totals exactly representable with
two decimals. -/
def exC9w : List RawRecord := [⟨some "A", some "handheld", some (5/2)⟩, ⟨some "A", some "pos", some 1⟩]

/-- Concrete input for claim C10: one row with an unknown device label. -/
def exC10raw : List RawRecord := [⟨some "A", some "kiosk", some 1⟩]

/-- The normalized form of the re-ingested export rows: each report row
becomes one handheld record and one pos record whose amounts are the coerced,
re-parsed two-decimal exports.  (`nrecords (exportRecords L)` evaluates to
this; see `nrecords_exportRecords`.) -/
def expandRows : List StaffSummary → List NRecord
  | [] => []
  | row :: rest =>
    ⟨some row.staff, "handheld", coerceBase (reingest (round2 row.handheld))⟩ ::
    ⟨some row.staff, "pos", coerceBase (reingest (round2 row.pos))⟩ :: expandRows rest

/-! ### Helper lemmas: channel classification -/

lemma firstMatch_cases (cs : List Char) :
    firstMatch cs = none ∨ firstMatch cs = some "handheld" ∨ firstMatch cs = some "pos" := by
  induction cs with
  | nil => simp [firstMatch]
  | cons c cs ih =>
    simp only [firstMatch]
    split_ifs <;> simp [ih]

lemma channelOf_mem (t : List Char) :
    channelOf t = "handheld" ∨ channelOf t = "pos" ∨ channelOf t = "unknown" := by
  unfold channelOf
  rcases firstMatch_cases t with h | h | h <;> rw [h] <;> simp

lemma normalizeDevice_mem (d : Option String) :
    normalizeDevice d = "handheld" ∨ normalizeDevice d = "pos" ∨
      normalizeDevice d = "unknown" := by
  unfold normalizeDevice
  cases d with
  | none => simp
  | some s => exact channelOf_mem _

lemma channelOf_replace (t : List Char) :
    channelOf (applyReplace t) =
      if t = "hand held".toList then "handheld" else channelOf t := by
  by_cases h1 : t = "handheld".toList
  · subst h1; decide
  · by_cases h2 : t = "hand held".toList
    · subst h2; decide
    · by_cases h3 : t = "pos".toList
      · subst h3; decide
      · by_cases h4 : t = "pos terminal".toList
        · subst h4; decide
        · rw [applyReplace, if_neg h1, if_neg h2, if_neg h3, if_neg h4, if_neg h2]

/-! ### Helper lemmas: rounding -/

lemma rhe_intCast (n : ℤ) : rhe (n : ℚ) = n := by
  unfold rhe
  rw [Int.floor_intCast]
  norm_num

lemma le_rhe_of_le (n : ℤ) (q : ℚ) (h : (n:ℚ) ≤ q) : n ≤ rhe q := by
  have hf : n ≤ ⌊q⌋ := Int.le_floor.mpr h
  unfold rhe
  split_ifs <;> omega

lemma rhe_le_of_le (q : ℚ) (n : ℤ) (h : q ≤ (n:ℚ)) : rhe q ≤ n := by
  have hf : ⌊q⌋ ≤ n := by
    have := Int.floor_le_floor h
    simpa using this
  have hfl : (↑⌊q⌋ : ℚ) ≤ q := Int.floor_le q
  unfold rhe
  split_ifs with h1 h2 h3
  · exact hf
  · by_contra hc
    push_neg at hc
    have hn : n = ⌊q⌋ := by omega
    rw [hn] at h
    linarith
  · exact hf
  · by_contra hc
    push_neg at hc
    have hn : n = ⌊q⌋ := by omega
    have h5 : (1:ℚ)/2 ≤ q - ⌊q⌋ := le_of_not_lt h1
    rw [hn] at h
    linarith

lemma round2_nonneg (q : ℚ) (h : 0 ≤ q) : 0 ≤ round2 q := by
  have h0 : (0:ℤ) ≤ rhe (q * 100) := le_rhe_of_le 0 _ (by push_cast; linarith)
  unfold round2
  exact div_nonneg (by exact_mod_cast h0) (by norm_num)

lemma round2_le_of_le (q : ℚ) (n : ℤ) (h : q ≤ (n:ℚ)) : round2 q ≤ (n:ℚ) := by
  have h1 : rhe (q * 100) ≤ n * 100 := by
    apply rhe_le_of_le
    push_cast
    nlinarith
  unfold round2
  rw [div_le_iff₀ (by norm_num : (0:ℚ) < 100)]
  calc ((rhe (q * 100) : ℤ) : ℚ) ≤ ((n * 100 : ℤ) : ℚ) := by exact_mod_cast h1
    _ = (n:ℚ) * 100 := by push_cast; ring

lemma round2_eq_self (q : ℚ) (n : ℤ) (h : q * 100 = (n:ℚ)) : round2 q = q := by
  unfold round2
  rw [h, rhe_intCast, ← h]
  field_simp

lemma round2_zero : round2 0 = 0 := by
  have h : (0:ℚ) * 100 = ((0:ℤ):ℚ) := by norm_num
  rw [round2_eq_self 0 0 h]

lemma rhe_eq_of_floor_lt (q : ℚ) (f : ℤ) (h1 : (f:ℚ) ≤ q) (h2 : q < (f:ℚ) + 1/2) :
    rhe q = f := by
  have hf : ⌊q⌋ = f := Int.floor_eq_iff.mpr ⟨h1, by linarith⟩
  unfold rhe
  rw [hf, if_pos (by linarith)]

lemma rhe_eq_of_floor_gt (q : ℚ) (f : ℤ) (h1 : (f:ℚ) + 1/2 < q) (h2 : q < (f:ℚ) + 1) :
    rhe q = f + 1 := by
  have hf : ⌊q⌋ = f := Int.floor_eq_iff.mpr ⟨by linarith, by linarith⟩
  unfold rhe
  rw [hf, if_neg (by linarith), if_pos (by linarith)]

lemma rhe_eq_of_half (q : ℚ) (f : ℤ) (h : q = (f:ℚ) + 1/2) :
    rhe q = if f % 2 = 0 then f else f + 1 := by
  have hf : ⌊q⌋ = f := Int.floor_eq_iff.mpr ⟨by linarith, by linarith⟩
  have hr : q - (f:ℚ) = 1/2 := by rw [h]; ring
  unfold rhe
  rw [hf, hr, if_neg (by norm_num), if_neg (by norm_num)]

lemma round2_eval (q : ℚ) (n : ℤ) (h : rhe (q * 100) = n) : round2 q = (n:ℚ)/100 := by
  unfold round2
  rw [h]

lemma pct2_if (h p : ℚ) :
    pct2 h p = if h + p = 0 then 0 else round2 (100 * h / (h + p)) := by
  unfold pct2 rawPct
  split_ifs with h0
  · exact round2_zero
  · rfl

/-! ### Helper lemmas: deduplication and permutations -/

lemma mem_dedupL {a : String} {l : List String} : a ∈ dedupL l ↔ a ∈ l := by
  induction l with
  | nil => simp [dedupL]
  | cons x xs ih =>
    simp only [dedupL]
    split_ifs with h
    · constructor
      · intro hm
        exact List.mem_cons_of_mem _ (ih.mp hm)
      · intro hm
        rcases List.mem_cons.mp hm with rfl | hm2
        · exact h
        · exact ih.mpr hm2
    · simp [List.mem_cons, ih]

lemma nodup_dedupL (l : List String) : (dedupL l).Nodup := by
  induction l with
  | nil => simp [dedupL]
  | cons x xs ih =>
    simp only [dedupL]
    split_ifs with h
    · exact ih
    · exact List.nodup_cons.mpr ⟨h, ih⟩

lemma perm_insStr (x : String) (l : List String) : (insStr x l).Perm (x :: l) := by
  induction l with
  | nil => rfl
  | cons y ys ih =>
    simp only [insStr]
    split_ifs with h
    · exact (ih.cons y).trans (List.Perm.swap x y ys)
    · rfl

lemma perm_sortStr (l : List String) : (sortStr l).Perm l := by
  induction l with
  | nil => rfl
  | cons x xs ih => exact (perm_insStr x (sortStr xs)).trans (ih.cons x)

/-! ### Helper lemmas: the lexicographic string order -/

lemma ordLt_irrefl (l : List Char) : ordLt l l = false := by
  induction l with
  | nil => rfl
  | cons c cs ih =>
    simp only [ordLt]
    rw [if_neg (lt_irrefl c), if_neg (lt_irrefl c)]
    exact ih

lemma ordLt_trans {a b c : List Char} (h1 : ordLt a b = true) (h2 : ordLt b c = true) :
    ordLt a c = true := by
  induction a generalizing b c with
  | nil =>
    cases b with
    | nil => simp [ordLt] at h1
    | cons bb bs =>
      cases c with
      | nil => simp [ordLt] at h2
      | cons cc cs => simp [ordLt]
  | cons aa as ih =>
    cases b with
    | nil => simp [ordLt] at h1
    | cons bb bs =>
      cases c with
      | nil => simp [ordLt] at h2
      | cons cc cs =>
        simp only [ordLt] at h1 h2 ⊢
        by_cases hab : aa < bb
        · by_cases hbc : bb < cc
          · rw [if_pos (lt_trans hab hbc)]
          · by_cases hcb : cc < bb
            · rw [if_neg hbc, if_pos hcb] at h2
              exact absurd h2 (by simp)
            · have hbb : bb = cc := le_antisymm (le_of_not_lt hcb) (le_of_not_lt hbc)
              subst hbb
              rw [if_pos hab]
        · by_cases hba : bb < aa
          · rw [if_neg hab, if_pos hba] at h1
            exact absurd h1 (by simp)
          · have haa : aa = bb := le_antisymm (le_of_not_lt hba) (le_of_not_lt hab)
            subst haa
            rw [if_neg hab, if_neg hba] at h1
            by_cases hac : aa < cc
            · rw [if_pos hac]
            · by_cases hca : cc < aa
              · rw [if_neg hac, if_pos hca] at h2
                exact absurd h2 (by simp)
              · rw [if_neg hac, if_neg hca] at h2 ⊢
                exact ih h1 h2

lemma ordLt_connex {a b : List Char} (h1 : ordLt a b = false) (h2 : ordLt b a = false) :
    a = b := by
  induction a generalizing b with
  | nil =>
    cases b with
    | nil => rfl
    | cons bb bs => simp [ordLt] at h1
  | cons aa as ih =>
    cases b with
    | nil => simp [ordLt] at h2
    | cons bb bs =>
      simp only [ordLt] at h1 h2
      by_cases hab : aa < bb
      · rw [if_pos hab] at h1
        exact absurd h1 (by simp)
      · by_cases hba : bb < aa
        · rw [if_pos hba] at h2
          exact absurd h2 (by simp)
        · have he : aa = bb := le_antisymm (le_of_not_lt hba) (le_of_not_lt hab)
          subst he
          rw [if_neg hab, if_neg hab] at h1
          rw [if_neg hab, if_neg hab] at h2
          rw [ih h1 h2]

lemma strLt_irrefl (a : String) : strLt a a = false := ordLt_irrefl _

lemma strLt_trans {a b c : String} (h1 : strLt a b = true) (h2 : strLt b c = true) :
    strLt a c = true := ordLt_trans h1 h2

lemma strLt_connex {a b : String} (h1 : strLt a b = false) (h2 : strLt b a = false) :
    a = b := String.ext (ordLt_connex h1 h2)

lemma strLt_asymm {a b : String} (h : strLt a b = true) : strLt b a = false := by
  by_contra hc
  have h2 : strLt b a = true := by simpa using hc
  have h3 := strLt_trans h h2
  rw [strLt_irrefl] at h3
  exact absurd h3 (by simp)

lemma strLe_trans {a b c : String} (h1 : strLt b a = false) (h2 : strLt c b = false) :
    strLt c a = false := by
  by_contra hx
  have hca : strLt c a = true := by simpa using hx
  by_cases hab : strLt a b = true
  · have h3 := strLt_trans hca hab
    rw [h3] at h2
    exact absurd h2 (by simp)
  · have hab' : strLt a b = false := by simpa using hab
    have he : a = b := strLt_connex hab' h1
    subst he
    rw [hca] at h2
    exact absurd h2 (by simp)

lemma strLt_of_not_of_ne {a b : String} (h1 : strLt b a = false) (h2 : a ≠ b) :
    strLt a b = true := by
  by_contra hc
  have h3 : strLt a b = false := by simpa using hc
  exact h2 (strLt_connex h3 h1)

/-! ### Helper lemmas: the ascending string sort -/

lemma mem_insStr {a x : String} {l : List String} :
    a ∈ insStr x l ↔ a = x ∨ a ∈ l := by
  rw [(perm_insStr x l).mem_iff]
  exact List.mem_cons

lemma insStr_pairwise {x : String} {l : List String}
    (h : l.Pairwise (fun a b => strLt b a = false)) :
    (insStr x l).Pairwise (fun a b => strLt b a = false) := by
  induction l with
  | nil => simp [insStr]
  | cons y ys ih =>
    rcases List.pairwise_cons.mp h with ⟨hy, hys⟩
    simp only [insStr]
    split_ifs with hyx
    · refine List.pairwise_cons.mpr ⟨?_, ih hys⟩
      intro b hb
      rcases mem_insStr.mp hb with rfl | hbys
      · exact strLt_asymm hyx
      · exact hy b hbys
    · have hyx' : strLt y x = false := by simpa using hyx
      refine List.pairwise_cons.mpr ⟨?_, h⟩
      intro b hb
      rcases List.mem_cons.mp hb with rfl | hbys
      · exact hyx'
      · exact strLe_trans hyx' (hy b hbys)

lemma sortStr_pairwise (l : List String) :
    (sortStr l).Pairwise (fun a b => strLt b a = false) := by
  induction l with
  | nil => simp [sortStr]
  | cons x xs ih => exact insStr_pairwise ih

lemma sortStr_pairwise_lt {l : List String} (h : l.Nodup) :
    (sortStr l).Pairwise (fun a b => strLt a b = true) := by
  have h1 := sortStr_pairwise l
  have h2 : (sortStr l).Nodup := (perm_sortStr l).nodup_iff.mpr h
  have h3 : (sortStr l).Pairwise (fun a b => a ≠ b) := h2
  exact (h1.and h3).imp fun hab => strLt_of_not_of_ne hab.1 (hab.2)

lemma sorted_eq_of_mem {l₁ l₂ : List String}
    (h₁ : l₁.Pairwise (fun a b => strLt a b = true))
    (h₂ : l₂.Pairwise (fun a b => strLt a b = true))
    (hm : ∀ a, a ∈ l₁ ↔ a ∈ l₂) : l₁ = l₂ := by
  induction l₁ generalizing l₂ with
  | nil =>
    cases l₂ with
    | nil => rfl
    | cons y ys => exact absurd ((hm y).mpr (List.mem_cons_self y ys)) (List.not_mem_nil y)
  | cons x xs ih =>
    cases l₂ with
    | nil => exact absurd ((hm x).mp (List.mem_cons_self x xs)) (List.not_mem_nil x)
    | cons y ys =>
      rcases List.pairwise_cons.mp h₁ with ⟨hx, hxs⟩
      rcases List.pairwise_cons.mp h₂ with ⟨hy, hys⟩
      have hxy : x = y := by
        have hxm : x ∈ y :: ys := (hm x).mp (List.mem_cons_self x xs)
        have hym : y ∈ x :: xs := (hm y).mpr (List.mem_cons_self y ys)
        rcases List.mem_cons.mp hxm with h' | hxys
        · exact h'
        · rcases List.mem_cons.mp hym with h' | hyxs
          · exact h'.symm
          · have ha := hx y hyxs
            have hb := hy x hxys
            rw [strLt_asymm ha] at hb
            exact absurd hb (by simp)
      subst hxy
      congr 1
      apply ih hxs hys
      intro a
      constructor
      · intro ha
        have h' := (hm a).mp (List.mem_cons_of_mem x ha)
        rcases List.mem_cons.mp h' with rfl | h''
        · have hc := hx a ha
          rw [strLt_irrefl] at hc
          exact absurd hc (by simp)
        · exact h''
      · intro ha
        have h' := (hm a).mpr (List.mem_cons_of_mem x ha)
        rcases List.mem_cons.mp h' with rfl | h''
        · have hc := hy a ha
          rw [strLt_irrefl] at hc
          exact absurd hc (by simp)
        · exact h''

/-! ### Helper lemmas: the descending percentage sort -/

lemma perm_insD (x : StaffSummary) (l : List StaffSummary) :
    (insD x l).Perm (x :: l) := by
  induction l with
  | nil => rfl
  | cons y ys ih =>
    simp only [insD]
    split_ifs with h
    · exact (ih.cons y).trans (List.Perm.swap x y ys)
    · rfl

lemma perm_sortD (l : List StaffSummary) : (sortD l).Perm l := by
  induction l with
  | nil => rfl
  | cons x xs ih => exact (perm_insD x (sortD xs)).trans (ih.cons x)

lemma insD_pairwise {x : StaffSummary} {l : List StaffSummary}
    (hl : l.Pairwise (fun a b => b.pct < a.pct ∨ (a.pct = b.pct ∧ strLt a.staff b.staff = true)))
    (hx : ∀ y ∈ l, strLt x.staff y.staff = true) :
    (insD x l).Pairwise
      (fun a b => b.pct < a.pct ∨ (a.pct = b.pct ∧ strLt a.staff b.staff = true)) := by
  induction l with
  | nil => simp [insD]
  | cons y ys ih =>
    rcases List.pairwise_cons.mp hl with ⟨hy, hys⟩
    simp only [insD]
    split_ifs with hxy
    · refine List.pairwise_cons.mpr ⟨?_, ih hys (fun z hz => hx z (List.mem_cons_of_mem _ hz))⟩
      intro b hb
      rcases List.mem_cons.mp ((perm_insD x ys).mem_iff.mp hb) with rfl | hbys
      · exact Or.inl hxy
      · exact hy b hbys
    · refine List.pairwise_cons.mpr ⟨?_, hl⟩
      intro b hb
      rcases List.mem_cons.mp hb with rfl | hbys
      · rcases lt_or_le b.pct x.pct with hlt | hle
        · exact Or.inl hlt
        · exact Or.inr ⟨le_antisymm hle (le_of_not_lt hxy), hx b (List.mem_cons_self b ys)⟩
      · have hby : b.pct ≤ y.pct := by
          rcases hy b hbys with h' | ⟨h', _⟩
          · exact le_of_lt h'
          · exact le_of_eq h'.symm
        have hyx : y.pct ≤ x.pct := le_of_not_lt hxy
        rcases lt_or_le b.pct x.pct with hlt | hle
        · exact Or.inl hlt
        · exact Or.inr ⟨le_antisymm hle (hby.trans hyx),
            hx b (List.mem_cons_of_mem _ hbys)⟩

lemma sortD_pairwise {l : List StaffSummary}
    (h : l.Pairwise (fun a b => strLt a.staff b.staff = true)) :
    (sortD l).Pairwise
      (fun a b => b.pct < a.pct ∨ (a.pct = b.pct ∧ strLt a.staff b.staff = true)) := by
  induction l with
  | nil => simp [sortD]
  | cons x xs ih =>
    rcases List.pairwise_cons.mp h with ⟨hx, hxs⟩
    simp only [sortD]
    refine insD_pairwise (ih hxs) ?_
    intro y hy
    exact hx y ((perm_sortD xs).mem_iff.mp hy)

/-! ### Helper lemmas: group keys and channel sums -/

lemma mem_staffKeys {rs : List NRecord} {k : String} :
    k ∈ staffKeys rs ↔ ∃ r ∈ rs, r.staff = some k := by
  unfold staffKeys
  rw [(perm_sortStr _).mem_iff, mem_dedupL]
  unfold staffStrings
  exact List.mem_filterMap

lemma staffKeys_nodup (rs : List NRecord) : (staffKeys rs).Nodup :=
  (perm_sortStr _).nodup_iff.mpr (nodup_dedupL _)

lemma staffKeys_pairwise (rs : List NRecord) :
    (staffKeys rs).Pairwise (fun a b => strLt a b = true) :=
  sortStr_pairwise_lt (nodup_dedupL _)

lemma sumFor_nil (k c : String) : sumFor [] k c = 0 := rfl

lemma sumFor_cons (r : NRecord) (rs : List NRecord) (k c : String) :
    sumFor (r :: rs) k c
      = (if r.staff = some k ∧ r.channel = c then r.amount else 0) + sumFor rs k c := by
  unfold sumFor
  simp only [List.filter_cons]
  by_cases h : r.staff = some k ∧ r.channel = c
  · rw [if_pos (by simp [h.1, h.2]), if_pos h, List.map_cons, List.sum_cons]
  · rw [if_neg (by simpa using h), if_neg h, zero_add]

lemma sumFor_append (rs₁ rs₂ : List NRecord) (k c : String) :
    sumFor (rs₁ ++ rs₂) k c = sumFor rs₁ k c + sumFor rs₂ k c := by
  induction rs₁ with
  | nil => simp [sumFor_nil]
  | cons r rs ih => rw [List.cons_append, sumFor_cons, sumFor_cons, ih, add_assoc]

lemma sum_map_add {α : Type} (l : List α) (f g : α → ℚ) :
    (l.map (fun a => f a + g a)).sum = (l.map f).sum + (l.map g).sum := by
  induction l with
  | nil => simp
  | cons x xs ih =>
    simp only [List.map_cons, List.sum_cons, ih]
    ring

lemma sum_map_zero {α : Type} (l : List α) : (l.map (fun _ => (0:ℚ))).sum = 0 := by
  induction l with
  | nil => rfl
  | cons x xs ih => simp [ih]

lemma sum_map_ite_single {α : Type} [DecidableEq α] (k : α) (v : α → ℚ) :
    ∀ K : List α, K.Nodup → k ∈ K →
      (K.map (fun j => if j = k then v j else 0)).sum = v k := by
  intro K
  induction K with
  | nil => intro _ h; cases h
  | cons x xs ih =>
    intro hnd hk
    rcases List.nodup_cons.mp hnd with ⟨hx, hxs⟩
    rcases List.mem_cons.mp hk with rfl | hkxs
    · have hz : (xs.map (fun j => if j = k then v j else 0)).sum = 0 := by
        apply List.sum_eq_zero
        intro q hq
        rcases List.mem_map.mp hq with ⟨j, hj, rfl⟩
        rw [if_neg]
        intro hjk
        rw [hjk] at hj
        exact hx hj
      rw [List.map_cons, List.sum_cons, hz, add_zero]
      simp
    · have hxk : ¬ (x = k) := by
        intro he
        rw [he] at hx
        exact hx hkxs
      rw [List.map_cons, List.sum_cons, if_neg hxk, zero_add, ih hxs hkxs]

lemma map_congr_q {α : Type} {f g : α → ℚ} :
    ∀ l : List α, (∀ a ∈ l, f a = g a) → l.map f = l.map g := by
  intro l
  induction l with
  | nil => intro _; rfl
  | cons x xs ih =>
    intro h
    rw [List.map_cons, List.map_cons, h x (List.mem_cons_self x xs),
      ih (fun a ha => h a (List.mem_cons_of_mem _ ha))]

lemma sum_keys_eq_records (c : String) (rs : List NRecord) :
    ∀ K : List String, K.Nodup →
      (∀ r ∈ rs, ∀ k, r.staff = some k → k ∈ K) →
      (K.map (fun k => sumFor rs k c)).sum =
        ((rs.filter (fun r => r.staff.isSome && r.channel == c)).map (·.amount)).sum := by
  induction rs with
  | nil =>
    intro K _ _
    have h0 : (K.map (fun k => sumFor [] k c)) = K.map (fun _ => (0:ℚ)) := rfl
    rw [h0, sum_map_zero]
    rfl
  | cons r rest ih =>
    intro K hnd hcov
    have e1 : K.map (fun k => sumFor (r :: rest) k c)
        = K.map (fun k => (if r.staff = some k ∧ r.channel = c then r.amount else 0)
            + sumFor rest k c) := by
      simp only [sumFor_cons]
    rw [e1, sum_map_add]
    have hcov2 : ∀ r2 ∈ rest, ∀ k, r2.staff = some k → k ∈ K :=
      fun r2 hr2 k hk => hcov r2 (List.mem_cons_of_mem _ hr2) k hk
    rw [ih K hnd hcov2, List.filter_cons]
    cases hs : r.staff with
    | none =>
      rw [if_neg (by simp)]
      have hz : K.map (fun k => if none = some k ∧ r.channel = c then r.amount else 0)
          = K.map (fun _ => (0:ℚ)) :=
        map_congr_q K (fun k _ => by simp)
      rw [hz, sum_map_zero, zero_add]
    | some k0 =>
      have hk0 : k0 ∈ K := hcov r (List.mem_cons_self r rest) k0 hs
      by_cases hcc : r.channel = c
      · rw [if_pos (by simp [hcc])]
        rw [List.map_cons, List.sum_cons]
        have hd : K.map (fun k => if some k0 = some k ∧ r.channel = c then r.amount else 0)
            = K.map (fun k => if k = k0 then r.amount else 0) :=
          map_congr_q K (fun k _ => by
            by_cases hkk : k = k0
            · subst hkk
              simp [hcc]
            · have hne : ¬(some k0 = some k ∧ r.channel = c) := by
                intro hand
                exact hkk (Option.some_inj.mp hand.1).symm
              rw [if_neg hne, if_neg hkk])
        rw [hd, sum_map_ite_single k0 (fun _ => r.amount) K hnd hk0]
      · rw [if_neg (by simp [hcc])]
        have hz : K.map (fun k => if some k0 = some k ∧ r.channel = c then r.amount else 0)
            = K.map (fun _ => (0:ℚ)) :=
          map_congr_q K (fun k _ => by simp [hcc])
        rw [hz, sum_map_zero, zero_add]

/-! ### Helper lemmas: the grouped frame -/

lemma summaryFor_staff (rs : List NRecord) (k : String) : (summaryFor rs k).staff = k := rfl

lemma grouped_staff (rs : List NRecord) :
    (grouped_df rs).map (·.staff) = staffKeys rs := by
  unfold grouped_df
  rw [List.map_map]
  have h : ((fun s : StaffSummary => s.staff) ∘ summaryFor rs) = id := rfl
  rw [h, List.map_id]

lemma grouped_pairwise (rs : List NRecord) :
    (grouped_df rs).Pairwise (fun a b => strLt a.staff b.staff = true) := by
  unfold grouped_df
  rw [List.pairwise_map]
  exact staffKeys_pairwise rs

lemma mem_grouped {rs : List NRecord} {x : StaffSummary} :
    x ∈ grouped_df rs ↔ ∃ k ∈ staffKeys rs, x = summaryFor rs k := by
  unfold grouped_df
  rw [List.mem_map]
  constructor
  · rintro ⟨k, hk, rfl⟩
    exact ⟨k, hk, rfl⟩
  · rintro ⟨k, hk, rfl⟩
    exact ⟨k, hk, rfl⟩

lemma map_staff_filter (L : List StaffSummary) :
    ((L.filter (fun s => s.staff != "Overall Total")).map (·.staff))
      = (L.map (·.staff)).filter (fun k => k != "Overall Total") := by
  induction L with
  | nil => rfl
  | cons x xs ih =>
    simp only [List.filter_cons, List.map_cons]
    split_ifs with h
    · rw [List.map_cons, ih]
    · exact ih

lemma non_summary_staff (rs : List NRecord) :
    (non_summary_df rs).map (·.staff)
      = (staffKeys rs).filter (fun k => k != "Overall Total") := by
  unfold non_summary_df
  rw [map_staff_filter, grouped_staff]

lemma non_summary_pairwise (rs : List NRecord) :
    (non_summary_df rs).Pairwise (fun a b => strLt a.staff b.staff = true) :=
  (grouped_pairwise rs).filter _

lemma sorted_df_pairwise (rs : List NRecord) :
    (sorted_df rs).Pairwise
      (fun a b => b.pct < a.pct ∨ (a.pct = b.pct ∧ strLt a.staff b.staff = true)) :=
  sortD_pairwise (non_summary_pairwise rs)

lemma mem_sorted_df {rs : List NRecord} {x : StaffSummary} :
    x ∈ sorted_df rs ↔ x ∈ non_summary_df rs := (perm_sortD _).mem_iff

lemma mem_non_summary {rs : List NRecord} {x : StaffSummary} :
    x ∈ non_summary_df rs ↔ x ∈ grouped_df rs ∧ x.staff ≠ "Overall Total" := by
  unfold non_summary_df
  rw [List.mem_filter]
  constructor
  · rintro ⟨h1, h2⟩
    exact ⟨h1, by simpa using h2⟩
  · rintro ⟨h1, h2⟩
    exact ⟨h1, by simpa using h2⟩

/-! ### Claim C1: channel normalization -/

lemma normalizeDevice_eq_fixed (d : Option String) :
    normalizeDevice d = specChannelFixed d := by
  cases d with
  | none => rfl
  | some s =>
    show channelOf (applyReplace (pyLower (pyStrip s.toList)))
        = if pyLower (pyStrip s.toList) = "hand held".toList then "handheld"
          else channelOf (pyLower (pyStrip s.toList))
    rw [channelOf_replace]

/-- Claim C1 counterexample: the raw label `hand held` contains neither the
substring `handheld` nor `pos` after trimming and lower-casing, so the spec's
substring rule classifies it `unknown`; the code's replace dict (line 33) maps
it to `handheld` first, so the pipeline classifies it `handheld`. -/
theorem C1_cex :
    normalizeDevice (some "hand held") = "handheld" ∧
      specChannelOf (some "hand held") = "unknown" ∧
      normalizeDevice (some "hand held") ≠ specChannelOf (some "hand held") := by
  refine ⟨by decide, by decide, by decide⟩

/-- Claim C1 (amended): the normalized channel follows the substring rule
(first matching substring of `handheld` / `pos` wins, else `unknown`) with one
exception — a label whose trimmed lower-cased form is exactly `hand held` is
classified `handheld` — and every normalized channel is one of the three
values `handheld`, `pos`, `unknown`. -/
theorem C1_channel_normalization (d : Option String) :
    normalizeDevice d = specChannelFixed d ∧
      (normalizeDevice d = "handheld" ∨ normalizeDevice d = "pos" ∨
        normalizeDevice d = "unknown") :=
  ⟨normalizeDevice_eq_fixed d, normalizeDevice_mem d⟩

/-! ### Claim C7: amount coercion -/

/-- Claim C7: a base amount that parses becomes exactly that number, a missing
or malformed one becomes `0`, no row is dropped by normalization, and a record
whose amount is `0` contributes nothing to any channel sum. -/
theorem C7_amount_coercion :
    (∀ (s d : Option String) (q : ℚ), (normalizeRow ⟨s, d, some q⟩).amount = q) ∧
      (∀ s d : Option String, (normalizeRow ⟨s, d, none⟩).amount = 0) ∧
      (∀ raws : List RawRecord, (nrecords raws).length = raws.length) ∧
      (∀ (rs : List NRecord) (r : NRecord) (k c : String), r.amount = 0 →
        sumFor (rs ++ [r]) k c = sumFor rs k c) := by
  refine ⟨fun s d q => rfl, fun s d => rfl, fun raws => List.length_map _ _, ?_⟩
  intro rs r k c h0
  rw [sumFor_append, sumFor_cons, sumFor_nil, h0]
  split_ifs <;> ring

/-- Claim C7 witness: appending a zero-amount record to a concrete frame
leaves a concrete channel sum unchanged. -/
theorem C7_witness :
    sumFor ([⟨some "A", "handheld", 5⟩] ++ [⟨some "A", "handheld", 0⟩]) "A" "handheld"
      = sumFor [⟨some "A", "handheld", 5⟩] "A" "handheld" :=
  C7_amount_coercion.2.2.2 [⟨some "A", "handheld", 5⟩] ⟨some "A", "handheld", 0⟩
    "A" "handheld" rfl

/-! ### Claim C8: all-or-nothing error handling -/

/-- Claim C8 counterexample: a file that parses and has all three required
columns — structurally valid in the claim's sense — still produces an error
and no report when the `Device Orders` column was inferred numeric (every
label a numeric code, or the column empty): line 30's `.str` accessor raises
inside the `try`, so the claim's "on valid input a complete report is
produced with no error" fails. -/
theorem C8_cex :
    structValid ⟨true, true,
        ["Device Orders Report", "Staff Customer", "Base (Including Disc.)"], []⟩ = true ∧
      runApp ⟨true, true,
          ["Device Orders Report", "Staff Customer", "Base (Including Disc.)"], []⟩
        = Except.error "AttributeError: can only use .str accessor with string values" :=
  ⟨by decide, rfl⟩

/-- Claim C8 (amended): processing is all-or-nothing — exactly one error and
no report when the input is structurally invalid (parse failure, missing
required column) OR when the device-order column was inferred numeric (so
line 30's `.str` accessor raises); a complete report and no error on a
structurally valid input whose device-order column is string-typed. -/
theorem C8_all_or_nothing (f : InputFile) :
    (structValid f = true → f.deviceNumeric = false →
      runApp f = Except.ok (final_df (nrecords f.raws))) ∧
      ((structValid f = false ∨ f.deviceNumeric = true) →
        ∃ e, runApp f = Except.error e) := by
  constructor
  · intro hv hnum
    unfold structValid at hv
    simp only [Bool.and_eq_true] at hv
    rcases hv with ⟨⟨⟨h1, h2⟩, h3⟩, h4⟩
    unfold runApp
    rw [if_neg (by rw [h1]; simp), if_neg (by rw [h2]; simp), if_neg (by rw [hnum]; simp),
      if_neg (by rw [h3]; simp), if_neg (by rw [h4]; simp)]
  · intro hv
    unfold runApp
    split_ifs with h1 h2 h3 h4 h5
    · exact ⟨_, rfl⟩
    · exact ⟨_, rfl⟩
    · exact ⟨_, rfl⟩
    · exact ⟨_, rfl⟩
    · exact ⟨_, rfl⟩
    · exfalso
      have hp : f.parseOk = true := by revert h1; cases f.parseOk <;> simp
      have hd : (canonHeaders f).contains "Device Orders" = true := by
        revert h2; cases (canonHeaders f).contains "Device Orders" <;> simp
      have hn : f.deviceNumeric = false := by revert h3; cases f.deviceNumeric <;> simp
      have hb : (canonHeaders f).contains "Base" = true := by
        revert h4; cases (canonHeaders f).contains "Base" <;> simp
      have hs : (canonHeaders f).contains "Staff Customer" = true := by
        revert h5; cases (canonHeaders f).contains "Staff Customer" <;> simp
      rcases hv with hv | hv
      · unfold structValid at hv
        rw [hp, hd, hb, hs] at hv
        simp at hv
      · rw [hn] at hv
        exact absurd hv (by simp)

/-- Claim C8 witness: a concrete file with the three (variant) headers and a
string-typed device column produces the complete report, and a concrete file
missing the columns produces an error. -/
theorem C8_witness :
    runApp ⟨true, false,
        ["Device Orders Report", "Staff Customer", "Base (Including Disc.)"], []⟩
        = Except.ok (final_df (nrecords [])) ∧
      ∃ e, runApp ⟨true, false, ["Nope"], []⟩ = Except.error e :=
  ⟨(C8_all_or_nothing _).1 (by decide) (by decide),
    (C8_all_or_nothing _).2 (Or.inl (by decide))⟩

/-! ### Concrete channel evaluations -/

lemma chanHH : normalizeDevice (some "handheld") = "handheld" := by decide

lemma chanPOS : normalizeDevice (some "pos") = "pos" := by decide

lemma chanKiosk : normalizeDevice (some "kiosk") = "unknown" := by decide

/-! ### Claim C2: the percentage formula and its rounding -/

lemma nC2 : nrecords exC2raw = [⟨some "A", "handheld", 1⟩, ⟨some "A", "pos", 2⟩] := by
  simp [nrecords, exC2raw, normalizeRow, coerceBase, chanHH, chanPOS]

lemma keysC2 : staffKeys (nrecords exC2raw) = ["A"] := by
  rw [nC2]; decide

lemma sumHC2 : sumFor (nrecords exC2raw) "A" "handheld" = 1 := by
  rw [nC2, sumFor_cons, sumFor_cons, sumFor_nil]; simp

lemma sumPC2 : sumFor (nrecords exC2raw) "A" "pos" = 2 := by
  rw [nC2, sumFor_cons, sumFor_cons, sumFor_nil]; simp

lemma round2_third : round2 ((100:ℚ)/3) = 3333/100 := by
  have h1 : rhe ((100:ℚ)/3 * 100) = 3333 := by
    have e2 : (100:ℚ)/3 * 100 = 10000/3 := by norm_num
    rw [e2]
    exact rhe_eq_of_floor_lt _ 3333 (by norm_num) (by norm_num)
  rw [round2_eval _ _ h1]
  norm_num

lemma pct2_1_2 : pct2 1 2 = 3333/100 := by
  unfold pct2 rawPct
  rw [if_neg (by norm_num : ¬((1:ℚ) + 2 = 0))]
  have e : (100:ℚ) * 1 / (1 + 2) = 100/3 := by norm_num
  rw [e, round2_third]

lemma pctC2 : (summaryFor (nrecords exC2raw) "A").pct = 3333/100 := by
  show pct2 (sumFor (nrecords exC2raw) "A" "handheld")
      (sumFor (nrecords exC2raw) "A" "pos") = 3333/100
  rw [sumHC2, sumPC2, pct2_1_2]

lemma groupedC2 : grouped_df (nrecords exC2raw) = [summaryFor (nrecords exC2raw) "A"] := by
  unfold grouped_df
  rw [keysC2]
  rfl

lemma thC2 : total_handheld (nrecords exC2raw) = 1 := by
  unfold total_handheld
  rw [groupedC2, List.map_cons, List.map_nil, List.sum_cons, List.sum_nil]
  show round2 (sumFor (nrecords exC2raw) "A" "handheld") + 0 = 1
  rw [sumHC2, round2_eq_self 1 100 (by norm_num)]
  norm_num

lemma tpC2 : total_pos (nrecords exC2raw) = 2 := by
  unfold total_pos
  rw [groupedC2, List.map_cons, List.map_nil, List.sum_cons, List.sum_nil]
  show round2 (sumFor (nrecords exC2raw) "A" "pos") + 0 = 2
  rw [sumPC2, round2_eq_self 2 200 (by norm_num)]
  norm_num

lemma opC2 : (summary_row (nrecords exC2raw)).pct = 100/3 := by
  show overall_percentage (nrecords exC2raw) = 100/3
  unfold overall_percentage
  rw [thC2, tpC2, if_pos (by norm_num : (0:ℚ) < 1 + 2)]
  norm_num

/-- Claim C2 counterexample: on the input `[(A, handheld, 1), (A, pos, 2)]`
the per-staff percentage is the two-decimal rounding `33.33`, but the overall
summary's numeric percentage is the unrounded `100/3` — no two-decimal
rounding rule is applied to it at all, so no single rounding rule is applied
identically to both. -/
theorem C2_cex :
    (summary_row (nrecords exC2raw)).pct = 100/3 ∧
      (summaryFor (nrecords exC2raw) "A").pct = 3333/100 ∧
      round2 ((100:ℚ)/3) = 3333/100 ∧
      round2 ((summary_row (nrecords exC2raw)).pct) ≠ (summary_row (nrecords exC2raw)).pct := by
  refine ⟨opC2, pctC2, round2_third, ?_⟩
  rw [opC2, round2_third]
  norm_num

/-- Claim C2 (amended): the per-staff percentage is `0` when
`handheld + pos = 0` and otherwise `100 * handheld / (handheld + pos)` rounded
half-to-even to two decimals; the overall summary's numeric percentage is the
unrounded ratio of the re-parsed totals (guarded by `> 0`), rounded only when
formatted for display or export. -/
theorem C2_percentage_rule (rs : List NRecord) (k : String) :
    (summaryFor rs k).pct
        = (if sumFor rs k "handheld" + sumFor rs k "pos" = 0 then 0
           else round2 (100 * sumFor rs k "handheld"
              / (sumFor rs k "handheld" + sumFor rs k "pos"))) ∧
      (summary_row rs).pct
        = (if 0 < total_handheld rs + total_pos rs then
             100 * total_handheld rs / (total_handheld rs + total_pos rs)
           else 0) :=
  ⟨pct2_if _ _, rfl⟩

/-! ### Claim C5: percentage bounds -/

/-- Claim C5 counterexample: with a negative handheld amount (-1 against pos 2)
the per-staff percentage is -100, outside [0, 100]. -/
theorem C5_cex :
    (summaryFor (nrecords exC5raw) "A").pct = -100 ∧
      ¬(0 ≤ (summaryFor (nrecords exC5raw) "A").pct) ∧
      (∃ r ∈ exC5raw, ∃ q : ℚ, r.base = some q ∧ q < 0) := by
  have nC5 : nrecords exC5raw = [⟨some "A", "handheld", -1⟩, ⟨some "A", "pos", 2⟩] := by
    simp [nrecords, exC5raw, normalizeRow, coerceBase, chanHH, chanPOS]
  have hH : sumFor (nrecords exC5raw) "A" "handheld" = -1 := by
    rw [nC5, sumFor_cons, sumFor_cons, sumFor_nil]; simp
  have hP : sumFor (nrecords exC5raw) "A" "pos" = 2 := by
    rw [nC5, sumFor_cons, sumFor_cons, sumFor_nil]; simp
  have hpct : (summaryFor (nrecords exC5raw) "A").pct = -100 := by
    show pct2 (sumFor (nrecords exC5raw) "A" "handheld")
        (sumFor (nrecords exC5raw) "A" "pos") = -100
    rw [hH, hP]
    unfold pct2 rawPct
    rw [if_neg (by norm_num : ¬((-1:ℚ) + 2 = 0))]
    have e : (100:ℚ) * (-1) / ((-1) + 2) = -100 := by norm_num
    rw [e]
    exact round2_eq_self _ (-10000) (by norm_num)
  refine ⟨hpct, by rw [hpct]; norm_num, ?_⟩
  exact ⟨⟨some "A", some "handheld", some (-1)⟩, List.mem_cons_self _ _, -1, rfl, by norm_num⟩

/-- Claim C5 (amended): whenever a staff member's handheld and pos totals are
both nonnegative, the percentage lies in [0, 100]; and it is 0 whenever both
totals are 0 (with negative amounts the percentage can leave [0, 100], as the
counterexample shows). -/
theorem C5_pct_in_range (rs : List NRecord) (k : String)
    (hh : 0 ≤ sumFor rs k "handheld") (hp : 0 ≤ sumFor rs k "pos") :
    (0 ≤ (summaryFor rs k).pct ∧ (summaryFor rs k).pct ≤ 100) ∧
      (sumFor rs k "handheld" = 0 → sumFor rs k "pos" = 0 →
        (summaryFor rs k).pct = 0) := by
  constructor
  · have hb : 0 ≤ rawPct (sumFor rs k "handheld") (sumFor rs k "pos") ∧
        rawPct (sumFor rs k "handheld") (sumFor rs k "pos") ≤ 100 := by
      unfold rawPct
      split_ifs with h0
      · norm_num
      · have hpos : 0 < sumFor rs k "handheld" + sumFor rs k "pos" :=
          lt_of_le_of_ne (by linarith) (Ne.symm h0)
        constructor
        · exact div_nonneg (by linarith) (le_of_lt hpos)
        · rw [div_le_iff₀ hpos]
          linarith
      
    obtain ⟨hb0, hb1⟩ := hb
    constructor
    · exact round2_nonneg _ hb0
    · have h100 := round2_le_of_le _ 100 (by exact_mod_cast hb1)
      show pct2 (sumFor rs k "handheld") (sumFor rs k "pos") ≤ 100
      unfold pct2
      exact_mod_cast h100
  · intro h1 h2
    show pct2 (sumFor rs k "handheld") (sumFor rs k "pos") = 0
    rw [h1, h2]
    unfold pct2 rawPct
    rw [if_pos (by norm_num)]
    exact round2_zero

/-- Claim C5 witness: the bounds at a concrete input with handheld 1, pos 0. -/
theorem C5_witness :
    (0 ≤ (summaryFor [⟨some "A", "handheld", 1⟩] "A").pct ∧
      (summaryFor [⟨some "A", "handheld", 1⟩] "A").pct ≤ 100) ∧
      (sumFor [⟨some "A", "handheld", 1⟩] "A" "handheld" = 0 →
        sumFor [⟨some "A", "handheld", 1⟩] "A" "pos" = 0 →
        (summaryFor [⟨some "A", "handheld", 1⟩] "A").pct = 0) := by
  have h1 : sumFor [⟨some "A", "handheld", (1:ℚ)⟩] "A" "handheld" = 1 := by
    rw [sumFor_cons, sumFor_nil]; simp
  have h2 : sumFor [⟨some "A", "handheld", (1:ℚ)⟩] "A" "pos" = 0 := by
    rw [sumFor_cons, sumFor_nil]; simp
  exact C5_pct_in_range _ "A" (by rw [h1]; norm_num) (by rw [h2])

/-! ### Claim C3: overall totals -/

lemma nC3 : nrecords exC3raw = [⟨some "A", "handheld", 1/8⟩] := by
  simp [nrecords, exC3raw, normalizeRow, coerceBase, chanHH]

lemma keysC3 : staffKeys (nrecords exC3raw) = ["A"] := by
  rw [nC3]; decide

lemma sumHC3 : sumFor (nrecords exC3raw) "A" "handheld" = 1/8 := by
  rw [nC3, sumFor_cons, sumFor_nil]; simp

lemma groupedC3 : grouped_df (nrecords exC3raw) = [summaryFor (nrecords exC3raw) "A"] := by
  unfold grouped_df
  rw [keysC3]
  rfl

lemma round2_eighth : round2 ((1:ℚ)/8) = 3/25 := by
  have h1 : rhe ((1:ℚ)/8 * 100) = 12 := by
    have e : (1:ℚ)/8 * 100 = 25/2 := by norm_num
    rw [e, rhe_eq_of_half _ 12 (by norm_num)]
    decide
  rw [round2_eval _ _ h1]
  norm_num

/-- Claim C3 counterexample: with a single handheld amount `1/8 = 0.125`, the
per-staff handheld total is `0.125` but the overall handheld total is computed
from the two-decimal formatted string `"0.12"` (lines 65, 70), so it equals
`0.12 = 3/25`, not the sum `1/8` of per-staff totals (equivalently of record
amounts). -/
theorem C3_cex :
    total_handheld (nrecords exC3raw) = 3/25 ∧
      ((grouped_df (nrecords exC3raw)).map (fun s => s.handheld)).sum = 1/8 ∧
      (((nrecords exC3raw).filter (fun r => r.staff.isSome && r.channel == "handheld")).map
          (fun r => r.amount)).sum = 1/8 ∧
      ((3:ℚ)/25 ≠ 1/8) := by
  refine ⟨?_, ?_, ?_, by norm_num⟩
  · unfold total_handheld
    rw [groupedC3, List.map_cons, List.map_nil, List.sum_cons, List.sum_nil]
    show round2 (sumFor (nrecords exC3raw) "A" "handheld") + 0 = 3/25
    rw [sumHC3, round2_eighth]
    norm_num
  · rw [groupedC3, List.map_cons, List.map_nil, List.sum_cons, List.sum_nil]
    show sumFor (nrecords exC3raw) "A" "handheld" + 0 = 1/8
    rw [sumHC3]
    norm_num
  · rw [nC3]
    simp

/-- Claim C3 (amended): the overall totals are the sums of the per-staff
totals **after two-decimal rounding** (the formatted strings re-parsed on
lines 70-71); whenever every per-staff total of a channel is two-decimal
exact, they agree with the sum over all normalized records of that channel
(a sufficient condition, not a necessary one — opposite rounding errors such
as 0.125 and 0.135 can cancel).  The overall percentage is recomputed from
these totals (ratio, not a mean of per-staff percentages), guarded by
denominator > 0. -/
theorem C3_overall_totals (rs : List NRecord) :
    (total_handheld rs = ((grouped_df rs).map (fun s => round2 s.handheld)).sum ∧
      total_pos rs = ((grouped_df rs).map (fun s => round2 s.pos)).sum) ∧
      ((∀ k ∈ staffKeys rs, round2 (sumFor rs k "handheld") = sumFor rs k "handheld") →
        total_handheld rs
          = ((rs.filter (fun r => r.staff.isSome && r.channel == "handheld")).map
              (fun r => r.amount)).sum) ∧
      ((∀ k ∈ staffKeys rs, round2 (sumFor rs k "pos") = sumFor rs k "pos") →
        total_pos rs
          = ((rs.filter (fun r => r.staff.isSome && r.channel == "pos")).map
              (fun r => r.amount)).sum) ∧
      (summary_row rs).pct
        = (if 0 < total_handheld rs + total_pos rs then
            100 * total_handheld rs / (total_handheld rs + total_pos rs) else 0) := by
  have eH : total_handheld rs
      = ((staffKeys rs).map (fun k => round2 (sumFor rs k "handheld"))).sum := by
    unfold total_handheld grouped_df
    rw [List.map_map]
    rfl
  have eP : total_pos rs
      = ((staffKeys rs).map (fun k => round2 (sumFor rs k "pos"))).sum := by
    unfold total_pos grouped_df
    rw [List.map_map]
    rfl
  refine ⟨⟨rfl, rfl⟩, ?_, ?_, rfl⟩
  · intro hex
    rw [eH, map_congr_q _ (fun k hk => hex k hk),
      sum_keys_eq_records "handheld" rs (staffKeys rs) (staffKeys_nodup rs)
        (fun r hr k hk => mem_staffKeys.mpr ⟨r, hr, hk⟩)]
  · intro hex
    rw [eP, map_congr_q _ (fun k hk => hex k hk),
      sum_keys_eq_records "pos" rs (staffKeys rs) (staffKeys_nodup rs)
        (fun r hr k hk => mem_staffKeys.mpr ⟨r, hr, hk⟩)]

/-- Claim C3 witness: on the C2 input (totals 1 and 2, both two-decimal
exact) the overall handheld total equals the sum over handheld records. -/
theorem C3_witness :
    total_handheld (nrecords exC2raw)
      = (((nrecords exC2raw).filter (fun r => r.staff.isSome && r.channel == "handheld")).map
          (fun r => r.amount)).sum := by
  apply (C3_overall_totals _).2.1
  intro k hk
  rw [keysC2] at hk
  rcases List.mem_cons.mp hk with rfl | h
  · rw [sumHC2]
    exact round2_eq_self 1 100 (by norm_num)
  · cases h

/-! ### Claim C4: ordering of the report -/

lemma pct2_zero : pct2 0 0 = 0 := by
  unfold pct2 rawPct
  rw [if_pos (by norm_num)]
  exact round2_zero

lemma nC4 : nrecords exC4raw = [⟨some "Bob", "unknown", 1⟩, ⟨some "Alice", "unknown", 1⟩] := by
  simp [nrecords, exC4raw, normalizeRow, coerceBase, chanKiosk]

lemma keysC4 : staffKeys (nrecords exC4raw) = ["Alice", "Bob"] := by
  rw [nC4]; decide

lemma sumC4 (k c : String) (hc : c ≠ "unknown") : sumFor (nrecords exC4raw) k c = 0 := by
  rw [nC4, sumFor_cons, sumFor_cons, sumFor_nil]
  rw [if_neg (fun h => hc h.2.symm), if_neg (fun h => hc h.2.symm)]
  norm_num

lemma pctC4 (k : String) : (summaryFor (nrecords exC4raw) k).pct = 0 := by
  show pct2 (sumFor (nrecords exC4raw) k "handheld") (sumFor (nrecords exC4raw) k "pos") = 0
  rw [sumC4 k "handheld" (by decide), sumC4 k "pos" (by decide), pct2_zero]

lemma groupedC4 : grouped_df (nrecords exC4raw)
    = [summaryFor (nrecords exC4raw) "Alice", summaryFor (nrecords exC4raw) "Bob"] := by
  unfold grouped_df
  rw [keysC4]
  rfl

lemma nsC4 : non_summary_df (nrecords exC4raw)
    = [summaryFor (nrecords exC4raw) "Alice", summaryFor (nrecords exC4raw) "Bob"] := by
  unfold non_summary_df
  rw [groupedC4, List.filter_cons, if_pos (by decide), List.filter_cons, if_pos (by decide),
    List.filter_nil]

lemma sortedC4 : sorted_df (nrecords exC4raw)
    = [summaryFor (nrecords exC4raw) "Alice", summaryFor (nrecords exC4raw) "Bob"] := by
  unfold sorted_df
  rw [nsC4]
  simp only [sortD, insD]
  rw [if_neg (by rw [pctC4, pctC4]; exact lt_irrefl 0)]

/-- Claim C4 counterexample: on the input order Bob, Alice (both with
percentage 0), the report lists Alice before Bob — `groupby` orders the keys
alphabetically before the sort, and on this two-row frame the program's sort
is deterministic (introsort degenerates to a stable insertion sort, and
pandas' `nargsort` double reversal preserves the order among the equal
percentages) — not the first-encountered input order Bob, Alice that the
claim requires. -/
theorem C4_cex :
    (final_df (nrecords exC4raw)).map (fun s => s.staff)
        = ["Alice", "Bob", "Overall Total"] ∧
      keepFirst (staffStrings (nrecords exC4raw)) = ["Bob", "Alice"] ∧
      (summaryFor (nrecords exC4raw) "Alice").pct
        = (summaryFor (nrecords exC4raw) "Bob").pct ∧
      (["Alice", "Bob", "Overall Total"] : List String) ≠ ["Bob", "Alice", "Overall Total"] := by
  refine ⟨?_, ?_, ?_, by decide⟩
  · unfold final_df
    rw [sortedC4]
    rfl
  · rw [nC4]; decide
  · rw [pctC4, pctC4]

/-- Claim C4 (amended): adjacent report rows are ordered by percentage
descending; the summary row is always appended last and never takes part in
the sort (any staff row labelled `Overall Total` is removed before sorting).
The tie-break is NOT first-encountered input order: the grouping reorders
the rows by ascending staff identifier before the sort, and the default
quicksort guarantees no particular order among equal percentages at all. -/
theorem C4_ordering (rs : List NRecord) :
    (sorted_df rs).Pairwise (fun a b => b.pct ≤ a.pct) ∧
      final_df rs = sorted_df rs ++ [summary_row rs] ∧
      (final_df rs).getLast? = some (summary_row rs) ∧
      (∀ x ∈ sorted_df rs, x.staff ≠ "Overall Total") := by
  refine ⟨?_, rfl, ?_, ?_⟩
  · refine (sorted_df_pairwise rs).imp ?_
    intro a b h
    rcases h with hlt | ⟨heq, _⟩
    · exact le_of_lt hlt
    · exact le_of_eq heq.symm
  · unfold final_df
    exact List.getLast?_concat _
  · intro x hx
    exact (mem_non_summary.mp (mem_sorted_df.mp hx)).2

/-! ### Claim C6: one row per staff identifier -/

lemma nC6 : nrecords exC6raw = [⟨some "Overall Total", "handheld", 5⟩, ⟨none, "pos", 3⟩] := by
  simp [nrecords, exC6raw, normalizeRow, coerceBase, chanHH, chanPOS]

lemma nsC6 : non_summary_df (nrecords exC6raw) = [] := by
  have keysC6 : staffKeys (nrecords exC6raw) = ["Overall Total"] := by
    rw [nC6]; decide
  unfold non_summary_df grouped_df
  rw [keysC6]
  rw [List.map_cons, List.map_nil, List.filter_cons, if_neg (by decide), List.filter_nil]

lemma sortedC6 : sorted_df (nrecords exC6raw) = [] := by
  unfold sorted_df
  rw [nsC6]
  rfl

/-- Claim C6 counterexample: an input containing a staff member literally
named `Overall Total` and a row with a missing staff identifier produces NO
per-staff rows at all: the missing-identifier row is dropped by `groupby`
(line 47) and the `Overall Total` staff row is filtered out on line 84 — the
only remaining report row is the appended summary row. -/
theorem C6_cex :
    (final_df (nrecords exC6raw)).map (fun s => s.staff) = ["Overall Total"] ∧
      sorted_df (nrecords exC6raw) = [] ∧
      (∃ r ∈ exC6raw, r.staff = some "Overall Total") ∧
      (∃ r ∈ exC6raw, r.staff = none) := by
  refine ⟨?_, sortedC6, ?_, ?_⟩
  · unfold final_df
    rw [sortedC6]
    rfl
  · exact ⟨⟨some "Overall Total", some "handheld", some 5⟩, List.mem_cons_self _ _, rfl⟩
  · exact ⟨⟨none, some "pos", some 3⟩,
      List.mem_cons_of_mem _ (List.mem_cons_self _ _), rfl⟩

/-- Claim C6 (amended): the per-staff section of the report has exactly one
row for each distinct staff identifier that is present (non-missing) in the
input and different from the sentinel `Overall Total`; rows whose identifier
is missing are dropped by the grouping, and a staff identifier equal to
`Overall Total` gets no per-staff row. -/
theorem C6_rows (raws : List RawRecord) :
    (∀ k, (k ∈ (sorted_df (nrecords raws)).map (fun s => s.staff)) ↔
        (k ≠ "Overall Total" ∧ ∃ r ∈ raws, r.staff = some k)) ∧
      ((sorted_df (nrecords raws)).map (fun s => s.staff)).Nodup := by
  have hperm : ((sorted_df (nrecords raws)).map (fun s => s.staff)).Perm
      ((non_summary_df (nrecords raws)).map (fun s => s.staff)) :=
    (perm_sortD _).map _
  constructor
  · intro k
    rw [hperm.mem_iff, non_summary_staff, List.mem_filter, mem_staffKeys]
    constructor
    · rintro ⟨⟨r, hr, hkr⟩, hne⟩
      refine ⟨by simpa using hne, ?_⟩
      rcases List.mem_map.mp hr with ⟨raw, hraw, rfl⟩
      exact ⟨raw, hraw, hkr⟩
    · rintro ⟨hne, raw, hraw, hkr⟩
      exact ⟨⟨normalizeRow raw, List.mem_map_of_mem _ hraw, hkr⟩, by simpa using hne⟩
  · have h2 : ((non_summary_df (nrecords raws)).map (fun s => s.staff)).Nodup := by
      rw [non_summary_staff]
      exact (staffKeys_nodup _).filter _
    exact hperm.nodup_iff.mpr h2

/-! ### Claim C10: export shape -/

lemma mem_withHandheld_self (cols : List String) : "handheld" ∈ withHandheld cols := by
  unfold withHandheld
  split_ifs with h
  · exact h
  · simp

lemma mem_withPos_self (cols : List String) : "pos" ∈ withPos cols := by
  unfold withPos
  split_ifs with h
  · exact h
  · simp

lemma mem_withHandheld_of_mem {c : String} {cols : List String} (h : c ∈ cols) :
    c ∈ withHandheld cols := by
  unfold withHandheld
  split_ifs
  · exact h
  · exact List.mem_append_left _ h

lemma mem_withPos_of_mem {c : String} {cols : List String} (h : c ∈ cols) :
    c ∈ withPos cols := by
  unfold withPos
  split_ifs
  · exact h
  · exact List.mem_append_left _ h

lemma mem_withHandheld_elim {c : String} {cols : List String} (h : c ∈ withHandheld cols) :
    c ∈ cols ∨ c = "handheld" := by
  unfold withHandheld at h
  split_ifs at h
  · exact Or.inl h
  · rcases List.mem_append.mp h with h2 | h2
    · exact Or.inl h2
    · simp at h2
      exact Or.inr h2

lemma mem_withPos_elim {c : String} {cols : List String} (h : c ∈ withPos cols) :
    c ∈ cols ∨ c = "pos" := by
  unfold withPos at h
  split_ifs at h
  · exact Or.inl h
  · rcases List.mem_append.mp h with h2 | h2
    · exact Or.inl h2
    · simp at h2
      exact Or.inr h2

lemma mem_presentChannels {rs : List NRecord} {c : String} :
    c ∈ presentChannels rs ↔ ∃ r ∈ rs, r.staff.isSome = true ∧ r.channel = c := by
  unfold presentChannels
  rw [(perm_sortStr _).mem_iff, mem_dedupL]
  unfold keptChannels
  rw [List.mem_map]
  constructor
  · rintro ⟨r, hr, rfl⟩
    rcases List.mem_filter.mp hr with ⟨hr1, hr2⟩
    exact ⟨r, hr1, hr2, rfl⟩
  · rintro ⟨r, hr, hsome, rfl⟩
    exact ⟨r, List.mem_filter.mpr ⟨hr, hsome⟩, rfl⟩

lemma renameDevice_unknown_iff {c : String} : renameDevice c = "unknown" ↔ c = "unknown" := by
  constructor
  · intro h
    unfold renameDevice at h
    split_ifs at h with h1 h2
    · exact absurd h (by decide)
    · exact absurd h (by decide)
    · exact h
  · intro h
    subst h
    decide

/-- Claim C10 counterexample: a single row with the unknown device label
`kiosk` makes the export carry SIX columns: besides the four the claim lists,
an `unknown` column (the unstacked sums of the unknown channel, line 47) and
the `Tablet Use Percentage (Numeric)` column (lines 58, 95), which is written
to the CSV on line 135 for every input. -/
theorem C10_cex :
    exportColumns (nrecords exC10raw)
        = ["Server", "unknown", "Tablet Sales", "POS Sales",
            "Tablet Use Percentage (Numeric)", "Tablet Use Percentage"] ∧
      "unknown" ∈ exportColumns (nrecords exC10raw) ∧
      "Tablet Use Percentage (Numeric)" ∈ exportColumns (nrecords exC10raw) ∧
      (exportColumns (nrecords exC10raw)).length = 6 := by
  refine ⟨by decide, by decide, by decide, by decide⟩

/-- Claim C10 (amended): the export is one row per staff (sorted) followed by
the summary row last, and its columns are: `Server`, one column per device
channel present (`handheld` and `pos` always ensured and renamed
`Tablet Sales` / `POS Sales`; an `unknown` column appears exactly when some
grouped row has an unknown channel), plus BOTH the numeric percentage column
and the `%`-formatted percentage column. -/
theorem C10_export_shape (raws : List RawRecord) :
    ("Server" ∈ exportColumns (nrecords raws) ∧
      "Tablet Sales" ∈ exportColumns (nrecords raws) ∧
      "POS Sales" ∈ exportColumns (nrecords raws) ∧
      "Tablet Use Percentage (Numeric)" ∈ exportColumns (nrecords raws) ∧
      "Tablet Use Percentage" ∈ exportColumns (nrecords raws)) ∧
      (∀ c ∈ exportColumns (nrecords raws),
        c ∈ ["Server", "Tablet Sales", "POS Sales", "unknown",
          "Tablet Use Percentage (Numeric)", "Tablet Use Percentage"]) ∧
      ("unknown" ∈ exportColumns (nrecords raws) ↔
        ∃ r ∈ raws, r.staff.isSome = true ∧ normalizeDevice r.device = "unknown") ∧
      final_df (nrecords raws) = sorted_df (nrecords raws) ++ [summary_row (nrecords raws)] ∧
      (final_df (nrecords raws)).getLast? = some (summary_row (nrecords raws)) := by
  refine ⟨⟨?_, ?_, ?_, ?_, ?_⟩, ?_, ?_, rfl, List.getLast?_concat _⟩
  · exact List.mem_cons_self _ _
  · refine List.mem_cons_of_mem _ (List.mem_append_left _ ?_)
    exact List.mem_map.mpr ⟨"handheld",
      mem_withPos_of_mem (mem_withHandheld_self _), by decide⟩
  · refine List.mem_cons_of_mem _ (List.mem_append_left _ ?_)
    exact List.mem_map.mpr ⟨"pos", mem_withPos_self _, by decide⟩
  · refine List.mem_cons_of_mem _ (List.mem_append_right _ ?_)
    simp
  · refine List.mem_cons_of_mem _ (List.mem_append_right _ ?_)
    simp
  · intro c hc
    rcases List.mem_cons.mp hc with rfl | hc2
    · simp
    rcases List.mem_append.mp hc2 with hcm | hcp
    · rcases List.mem_map.mp hcm with ⟨d, hd, rfl⟩
      rcases mem_withPos_elim hd with hd2 | rfl
      · rcases mem_withHandheld_elim hd2 with hd3 | rfl
        · rcases mem_presentChannels.mp hd3 with ⟨r, hr, _, rfl⟩
          rcases List.mem_map.mp hr with ⟨raw, _, rfl⟩
          show renameDevice (normalizeDevice raw.device) ∈ _
          rcases normalizeDevice_mem raw.device with h | h | h <;> rw [h] <;> decide
        · decide
      · decide
    · simp at hcp
      rcases hcp with rfl | rfl <;> simp
  · constructor
    · intro hu
      rcases List.mem_cons.mp hu with he | hu2
      · exact absurd he (by decide)
      rcases List.mem_append.mp hu2 with hum | hup
      · rcases List.mem_map.mp hum with ⟨d, hd, hren⟩
        have hdu : d = "unknown" := renameDevice_unknown_iff.mp hren
        subst hdu
        rcases mem_withPos_elim hd with hd2 | he
        · rcases mem_withHandheld_elim hd2 with hd3 | he
          · rcases mem_presentChannels.mp hd3 with ⟨r, hr, hsome, hchan⟩
            rcases List.mem_map.mp hr with ⟨raw, hraw, rfl⟩
            exact ⟨raw, hraw, hsome, hchan⟩
          · exact absurd he (by decide)
        · exact absurd he (by decide)
      · simp at hup
    · rintro ⟨raw, hraw, hsome, hchan⟩
      refine List.mem_cons_of_mem _ (List.mem_append_left _ ?_)
      refine List.mem_map.mpr ⟨"unknown", ?_, by decide⟩
      refine mem_withPos_of_mem (mem_withHandheld_of_mem ?_)
      exact mem_presentChannels.mpr
        ⟨normalizeRow raw, List.mem_map_of_mem _ hraw, hsome, hchan⟩

/-! ### Claim C9: round-trip infrastructure -/

lemma map_congr_g {α β : Type} {f g : α → β} :
    ∀ l : List α, (∀ a ∈ l, f a = g a) → l.map f = l.map g := by
  intro l
  induction l with
  | nil => intro _; rfl
  | cons x xs ih =>
    intro h
    rw [List.map_cons, List.map_cons, h x (List.mem_cons_self x xs),
      ih (fun a ha => h a (List.mem_cons_of_mem _ ha))]

lemma normalizeRow_hh (st : Option String) (b : Option ℚ) :
    normalizeRow ⟨st, some "handheld", b⟩ = ⟨st, "handheld", coerceBase b⟩ := by
  show (⟨st, normalizeDevice (some "handheld"), coerceBase b⟩ : NRecord) = _
  rw [chanHH]

lemma normalizeRow_pp (st : Option String) (b : Option ℚ) :
    normalizeRow ⟨st, some "pos", b⟩ = ⟨st, "pos", coerceBase b⟩ := by
  show (⟨st, normalizeDevice (some "pos"), coerceBase b⟩ : NRecord) = _
  rw [chanPOS]

lemma ite_rec (st : Option String) (ch : String) (q : ℚ) (k c : String) :
    (if (⟨st, ch, q⟩ : NRecord).staff = some k ∧ (⟨st, ch, q⟩ : NRecord).channel = c
      then (⟨st, ch, q⟩ : NRecord).amount else 0)
      = if st = some k ∧ ch = c then q else 0 := rfl

lemma nrecords_exportRecords (L : List StaffSummary) :
    nrecords (exportRecords L) = expandRows L := by
  induction L with
  | nil => rfl
  | cons row rest ih =>
    show normalizeRow ⟨some row.staff, some "handheld", reingest (round2 row.handheld)⟩ ::
        normalizeRow ⟨some row.staff, some "pos", reingest (round2 row.pos)⟩ ::
        nrecords (exportRecords rest)
        = expandRows (row :: rest)
    rw [ih, normalizeRow_hh, normalizeRow_pp]
    rfl

lemma sumForH_expandRows (L : List StaffSummary) (k : String) :
    sumFor (expandRows L) k "handheld"
      = (L.map (fun row =>
          if row.staff = k then coerceBase (reingest (round2 row.handheld)) else 0)).sum := by
  induction L with
  | nil => rfl
  | cons row rest ih =>
    show sumFor (⟨some row.staff, "handheld", coerceBase (reingest (round2 row.handheld))⟩ ::
        ⟨some row.staff, "pos", coerceBase (reingest (round2 row.pos))⟩ ::
        expandRows rest) k "handheld" = _
    rw [sumFor_cons, sumFor_cons, ih, List.map_cons, List.sum_cons, ite_rec, ite_rec]
    rw [if_neg (fun h => absurd h.2 (by decide) :
      ¬(some row.staff = some k ∧ ("pos" : String) = "handheld"))]
    by_cases hk : row.staff = k
    · rw [if_pos (⟨by rw [hk], rfl⟩ :
        some row.staff = some k ∧ ("handheld" : String) = "handheld"), if_pos hk]
      ring
    · rw [if_neg (fun h => hk (Option.some_inj.mp h.1) :
        ¬(some row.staff = some k ∧ ("handheld" : String) = "handheld")), if_neg hk]
      ring

lemma sumForP_expandRows (L : List StaffSummary) (k : String) :
    sumFor (expandRows L) k "pos"
      = (L.map (fun row =>
          if row.staff = k then coerceBase (reingest (round2 row.pos)) else 0)).sum := by
  induction L with
  | nil => rfl
  | cons row rest ih =>
    show sumFor (⟨some row.staff, "handheld", coerceBase (reingest (round2 row.handheld))⟩ ::
        ⟨some row.staff, "pos", coerceBase (reingest (round2 row.pos))⟩ ::
        expandRows rest) k "pos" = _
    rw [sumFor_cons, sumFor_cons, ih, List.map_cons, List.sum_cons, ite_rec, ite_rec]
    rw [if_neg (fun h => absurd h.2 (by decide) :
      ¬(some row.staff = some k ∧ ("handheld" : String) = "pos"))]
    by_cases hk : row.staff = k
    · rw [if_pos (⟨by rw [hk], rfl⟩ :
        some row.staff = some k ∧ ("pos" : String) = "pos"), if_pos hk]
      ring
    · rw [if_neg (fun h => hk (Option.some_inj.mp h.1) :
        ¬(some row.staff = some k ∧ ("pos" : String) = "pos")), if_neg hk]
      ring

lemma sum_map_staff_single (k : String) (w : StaffSummary → ℚ) (x0 : StaffSummary)
    (hk : x0.staff = k) :
    ∀ L : List StaffSummary, (L.map (fun s => s.staff)).Nodup → x0 ∈ L →
      (L.map (fun x => if x.staff = k then w x else 0)).sum = w x0 := by
  intro L
  induction L with
  | nil => intro _ h; cases h
  | cons y ys ih =>
    intro hnd hx0
    rw [List.map_cons] at hnd
    rcases List.nodup_cons.mp hnd with ⟨hy, hys⟩
    rcases List.mem_cons.mp hx0 with rfl | hx0ys
    · rw [List.map_cons, List.sum_cons, if_pos hk]
      have hz : (ys.map (fun x => if x.staff = k then w x else 0)).sum = 0 := by
        apply List.sum_eq_zero
        intro q hq
        rcases List.mem_map.mp hq with ⟨x, hx, rfl⟩
        rw [if_neg]
        intro hxe
        exact hy (List.mem_map.mpr ⟨x, hx, hxe.trans hk.symm⟩)
      rw [hz, add_zero]
    · rw [List.map_cons, List.sum_cons,
        if_neg (fun he => hy (List.mem_map.mpr ⟨x0, hx0ys, hk.trans he.symm⟩)), zero_add]
      exact ih hys hx0ys

lemma sorted_staff_nodup (rs : List NRecord) :
    ((sorted_df rs).map (fun s => s.staff)).Nodup := by
  refine (((perm_sortD _).map _).nodup_iff).mpr ?_
  rw [non_summary_staff]
  exact (staffKeys_nodup _).filter _

lemma final_staff_nodup (rs : List NRecord) :
    ((final_df rs).map (fun s => s.staff)).Nodup := by
  unfold final_df
  rw [List.map_append]
  refine List.Nodup.append (sorted_staff_nodup rs) (List.nodup_singleton _) ?_
  intro a ha hb
  rcases List.mem_map.mp ha with ⟨x, hx, rfl⟩
  have := (mem_non_summary.mp (mem_sorted_df.mp hx)).2
  simp only [List.map_cons, List.map_nil] at hb
  rcases List.mem_cons.mp hb with he | he
  · exact this he
  · cases he

lemma filter_staff_map (g : String → StaffSummary) (hg : ∀ k, (g k).staff = k) :
    ∀ K : List String,
      (K.map g).filter (fun s => s.staff != "Overall Total")
        = (K.filter (fun k => k != "Overall Total")).map g := by
  intro K
  induction K with
  | nil => rfl
  | cons x xs ih =>
    rw [List.map_cons, List.filter_cons, List.filter_cons]
    by_cases h : (x != "Overall Total") = true
    · rw [if_pos (by rw [hg]; exact h), if_pos h, List.map_cons, ih]
    · rw [if_neg (by rw [hg]; exact h), if_neg h, ih]

lemma non_summary_eq_map (rs : List NRecord) :
    non_summary_df rs
      = ((staffKeys rs).filter (fun k => k != "Overall Total")).map (summaryFor rs) := by
  unfold non_summary_df grouped_df
  exact filter_staff_map (summaryFor rs) (summaryFor_staff rs) _

lemma mem_expandRows_staff (a : String) :
    ∀ L : List StaffSummary,
      ((∃ r ∈ expandRows L, r.staff = some a) ↔ ∃ row ∈ L, row.staff = a) := by
  intro L
  induction L with
  | nil =>
    constructor
    · rintro ⟨r, hr, _⟩
      cases hr
    · rintro ⟨row, hrow, _⟩
      cases hrow
  | cons row rest ih =>
    constructor
    · rintro ⟨r, hr, hra⟩
      rcases List.mem_cons.mp hr with rfl | hr2
      · exact ⟨row, List.mem_cons_self _ _, Option.some_inj.mp hra⟩
      rcases List.mem_cons.mp hr2 with rfl | hr3
      · exact ⟨row, List.mem_cons_self _ _, Option.some_inj.mp hra⟩
      · rcases ih.mp ⟨r, hr3, hra⟩ with ⟨row2, hrow2, hrow2a⟩
        exact ⟨row2, List.mem_cons_of_mem _ hrow2, hrow2a⟩
    · rintro ⟨row2, hrow2, hrow2a⟩
      rcases List.mem_cons.mp hrow2 with rfl | hr2
      · exact ⟨⟨some row2.staff, "handheld", coerceBase (reingest (round2 row2.handheld))⟩,
          List.mem_cons_self _ _, by rw [hrow2a]⟩
      · rcases ih.mpr ⟨row2, hr2, hrow2a⟩ with ⟨r, hr, hra⟩
        exact ⟨r, List.mem_cons_of_mem _ (List.mem_cons_of_mem _ hr), hra⟩

lemma mem_final_staff (rs : List NRecord) (a : String) :
    (∃ row ∈ final_df rs, row.staff = a) ↔
      (a ∈ staffKeys rs ∧ a ≠ "Overall Total") ∨ a = "Overall Total" := by
  unfold final_df
  constructor
  · rintro ⟨row, hrow, rfl⟩
    rcases List.mem_append.mp hrow with h | h
    · left
      have h2 := mem_non_summary.mp (mem_sorted_df.mp h)
      refine ⟨?_, h2.2⟩
      rcases mem_grouped.mp h2.1 with ⟨k, hk, rfl⟩
      rw [summaryFor_staff]
      exact hk
    · rcases List.mem_cons.mp h with rfl | h2
      · right
        rfl
      · cases h2
  · rintro (⟨hk, hne⟩ | rfl)
    · refine ⟨summaryFor rs a, List.mem_append_left _ ?_, summaryFor_staff rs a⟩
      refine mem_sorted_df.mpr (mem_non_summary.mpr ⟨mem_grouped.mpr ⟨a, hk, rfl⟩, ?_⟩)
      rw [summaryFor_staff]
      exact hne
    · exact ⟨summary_row rs, List.mem_append_right _ (List.mem_cons_self _ _), rfl⟩

/-- Claim C9 (amended): when every per-staff handheld and pos total is exactly
representable with two decimals and small enough to be exported without a
thousands separator, re-running the pipeline on the records read back from its
own export yields exactly the same sorted per-staff rows (totals and
percentages).  The exported summary row is dropped again by the
`Overall Total` filter, so it does not disturb the per-staff rows. -/
theorem C9_roundtrip (rs : List NRecord)
    (hex : ∀ k ∈ staffKeys rs,
      (round2 (sumFor rs k "handheld") = sumFor rs k "handheld" ∧
        -1000 < sumFor rs k "handheld" ∧ sumFor rs k "handheld" < 1000) ∧
      (round2 (sumFor rs k "pos") = sumFor rs k "pos" ∧
        -1000 < sumFor rs k "pos" ∧ sumFor rs k "pos" < 1000)) :
    sorted_df (nrecords (exportOf rs)) = sorted_df rs := by
  have hE : nrecords (exportOf rs) = expandRows (final_df rs) := nrecords_exportRecords _
  have hsum : ∀ k ∈ staffKeys rs, k ≠ "Overall Total" →
      (sumFor (nrecords (exportOf rs)) k "handheld" = sumFor rs k "handheld" ∧
        sumFor (nrecords (exportOf rs)) k "pos" = sumFor rs k "pos") := by
    intro k hk hne
    have hx0 : summaryFor rs k ∈ final_df rs := by
      refine List.mem_append_left _ (mem_sorted_df.mpr (mem_non_summary.mpr
        ⟨mem_grouped.mpr ⟨k, hk, rfl⟩, ?_⟩))
      rw [summaryFor_staff]
      exact hne
    have hnd := final_staff_nodup rs
    obtain ⟨⟨hrH, hbH1, hbH2⟩, hrP, hbP1, hbP2⟩ := hex k hk
    constructor
    · rw [hE, sumForH_expandRows,
        sum_map_staff_single k _ (summaryFor rs k) (summaryFor_staff rs k)
          (final_df rs) hnd hx0]
      show coerceBase (reingest (round2 (sumFor rs k "handheld"))) = _
      rw [hrH]
      unfold reingest
      rw [if_pos ⟨hbH1, hbH2⟩]
      rfl
    · rw [hE, sumForP_expandRows,
        sum_map_staff_single k _ (summaryFor rs k) (summaryFor_staff rs k)
          (final_df rs) hnd hx0]
      show coerceBase (reingest (round2 (sumFor rs k "pos"))) = _
      rw [hrP]
      unfold reingest
      rw [if_pos ⟨hbP1, hbP2⟩]
      rfl
  have hkeys : (staffKeys (nrecords (exportOf rs))).filter (fun k => k != "Overall Total")
      = (staffKeys rs).filter (fun k => k != "Overall Total") := by
    apply sorted_eq_of_mem ((staffKeys_pairwise _).filter _) ((staffKeys_pairwise _).filter _)
    intro a
    rw [List.mem_filter, List.mem_filter, mem_staffKeys, mem_staffKeys]
    constructor
    · rintro ⟨⟨r, hr, hra⟩, hane⟩
      have hane2 : a ≠ "Overall Total" := by simpa using hane
      have h1 : ∃ row ∈ final_df rs, row.staff = a := by
        apply (mem_expandRows_staff a (final_df rs)).mp
        rw [hE] at hr
        exact ⟨r, hr, hra⟩
      rcases (mem_final_staff rs a).mp h1 with ⟨hak, _⟩ | he
      · exact ⟨mem_staffKeys.mp hak, hane⟩
      · exact absurd he hane2
    · rintro ⟨⟨r, hr, hra⟩, hane⟩
      refine ⟨?_, hane⟩
      have h1 : ∃ row ∈ final_df rs, row.staff = a :=
        (mem_final_staff rs a).mpr
          (Or.inl ⟨mem_staffKeys.mpr ⟨r, hr, hra⟩, by simpa using hane⟩)
      rcases (mem_expandRows_staff a (final_df rs)).mpr h1 with ⟨rec, hrec, hreca⟩
      refine ⟨rec, ?_, hreca⟩
      rw [hE]
      exact hrec
  show sortD (non_summary_df (nrecords (exportOf rs))) = sortD (non_summary_df rs)
  rw [non_summary_eq_map (nrecords (exportOf rs)), non_summary_eq_map rs, hkeys]
  congr 1
  apply map_congr_g
  intro k hk2
  rcases List.mem_filter.mp hk2 with ⟨hk, hkne⟩
  have hne : k ≠ "Overall Total" := by simpa using hkne
  obtain ⟨hH, hP⟩ := hsum k hk hne
  unfold summaryFor
  rw [hH, hP]

/-! ### Claim C9: concrete evaluations -/

lemma nC9 : nrecords exC9raw = [⟨some "A", "handheld", 1/8⟩, ⟨some "A", "pos", 1⟩] := by
  simp [nrecords, exC9raw, normalizeRow, coerceBase, chanHH, chanPOS]

lemma keysC9 : staffKeys (nrecords exC9raw) = ["A"] := by
  rw [nC9]; decide

lemma sumHC9 : sumFor (nrecords exC9raw) "A" "handheld" = 1/8 := by
  rw [nC9, sumFor_cons, sumFor_cons, sumFor_nil]; simp

lemma sumPC9 : sumFor (nrecords exC9raw) "A" "pos" = 1 := by
  rw [nC9, sumFor_cons, sumFor_cons, sumFor_nil]; simp

lemma groupedC9 : grouped_df (nrecords exC9raw) = [summaryFor (nrecords exC9raw) "A"] := by
  unfold grouped_df
  rw [keysC9]
  rfl

lemma nsC9 : non_summary_df (nrecords exC9raw) = [summaryFor (nrecords exC9raw) "A"] := by
  unfold non_summary_df
  rw [groupedC9, List.filter_cons, if_pos (by decide), List.filter_nil]

lemma sortedC9 : sorted_df (nrecords exC9raw) = [summaryFor (nrecords exC9raw) "A"] := by
  unfold sorted_df
  rw [nsC9]
  rfl

lemma thC9 : total_handheld (nrecords exC9raw) = 3/25 := by
  unfold total_handheld
  rw [groupedC9, List.map_cons, List.map_nil, List.sum_cons, List.sum_nil]
  show round2 (sumFor (nrecords exC9raw) "A" "handheld") + 0 = 3/25
  rw [sumHC9, round2_eighth]
  norm_num

lemma tpC9 : total_pos (nrecords exC9raw) = 1 := by
  unfold total_pos
  rw [groupedC9, List.map_cons, List.map_nil, List.sum_cons, List.sum_nil]
  show round2 (sumFor (nrecords exC9raw) "A" "pos") + 0 = 1
  rw [sumPC9, round2_eq_self 1 100 (by norm_num)]
  norm_num

lemma pct2_eighth : pct2 (1/8) 1 = 1111/100 := by
  unfold pct2 rawPct
  rw [if_neg (by norm_num : ¬((1:ℚ)/8 + 1 = 0))]
  have e : (100:ℚ) * (1/8) / (1/8 + 1) = 100/9 := by norm_num
  rw [e]
  have h1 : rhe ((100:ℚ)/9 * 100) = 1111 := by
    have e2 : (100:ℚ)/9 * 100 = 10000/9 := by norm_num
    rw [e2]
    exact rhe_eq_of_floor_lt _ 1111 (by norm_num) (by norm_num)
  rw [round2_eval _ _ h1]
  norm_num

lemma pct2_twelve : pct2 (3/25) 1 = 1071/100 := by
  unfold pct2 rawPct
  rw [if_neg (by norm_num : ¬((3:ℚ)/25 + 1 = 0))]
  have e : (100:ℚ) * (3/25) / (3/25 + 1) = 75/7 := by norm_num
  rw [e]
  have h1 : rhe ((75:ℚ)/7 * 100) = 1071 := by
    have e2 : (75:ℚ)/7 * 100 = 7500/7 := by norm_num
    rw [e2]
    exact rhe_eq_of_floor_lt _ 1071 (by norm_num) (by norm_num)
  rw [round2_eval _ _ h1]
  norm_num

lemma hE9 : nrecords (exportOf (nrecords exC9raw))
    = [⟨some "A", "handheld", 3/25⟩, ⟨some "A", "pos", 1⟩,
        ⟨some "Overall Total", "handheld", 3/25⟩, ⟨some "Overall Total", "pos", 1⟩] := by
  have h1 : final_df (nrecords exC9raw)
      = [summaryFor (nrecords exC9raw) "A", summary_row (nrecords exC9raw)] := by
    unfold final_df
    rw [sortedC9]
    rfl
  show nrecords (exportRecords (final_df (nrecords exC9raw))) = _
  rw [nrecords_exportRecords, h1]
  simp only [expandRows]
  have e1 : round2 (summaryFor (nrecords exC9raw) "A").handheld = 3/25 := by
    show round2 (sumFor (nrecords exC9raw) "A" "handheld") = 3/25
    rw [sumHC9, round2_eighth]
  have e2 : round2 (summaryFor (nrecords exC9raw) "A").pos = 1 := by
    show round2 (sumFor (nrecords exC9raw) "A" "pos") = 1
    rw [sumPC9]
    exact round2_eq_self 1 100 (by norm_num)
  have e3 : round2 (summary_row (nrecords exC9raw)).handheld = 3/25 := by
    show round2 (total_handheld (nrecords exC9raw)) = 3/25
    rw [thC9]
    exact round2_eq_self _ 12 (by norm_num)
  have e4 : round2 (summary_row (nrecords exC9raw)).pos = 1 := by
    show round2 (total_pos (nrecords exC9raw)) = 1
    rw [tpC9]
    exact round2_eq_self 1 100 (by norm_num)
  rw [e1, e2, e3, e4]
  have r1 : reingest ((3:ℚ)/25) = some (3/25) := by
    unfold reingest
    rw [if_pos (by norm_num)]
  have r2 : reingest (1:ℚ) = some 1 := by
    unfold reingest
    rw [if_pos (by norm_num)]
  rw [r1, r2]
  rfl

lemma sumHE9 : sumFor (nrecords (exportOf (nrecords exC9raw))) "A" "handheld" = 3/25 := by
  rw [hE9, sumFor_cons, sumFor_cons, sumFor_cons, sumFor_cons, sumFor_nil]
  simp

lemma sumPE9 : sumFor (nrecords (exportOf (nrecords exC9raw))) "A" "pos" = 1 := by
  rw [hE9, sumFor_cons, sumFor_cons, sumFor_cons, sumFor_cons, sumFor_nil]
  simp

lemma sortedE9 : sorted_df (nrecords (exportOf (nrecords exC9raw)))
    = [summaryFor (nrecords (exportOf (nrecords exC9raw))) "A"] := by
  have hkeys : staffKeys (nrecords (exportOf (nrecords exC9raw))) = ["A", "Overall Total"] := by
    rw [hE9]; decide
  unfold sorted_df non_summary_df grouped_df
  rw [hkeys, List.map_cons, List.map_cons, List.map_nil, List.filter_cons,
    if_pos (by decide), List.filter_cons, if_neg (by decide), List.filter_nil]
  rfl

/-- Claim C9 counterexample: on the input `[(A, handheld, 0.125), (A, pos, 1)]`
the first run reports A with totals (0.125, 1) and percentage 11.11, but the
export carries the two-decimal total 0.12, so re-running the pipeline on the
export reports A with totals (0.12, 1) and percentage 10.71 — the numeric
fields do not round-trip. -/
theorem C9_cex :
    (sorted_df (nrecords exC9raw)).map (fun s => (s.staff, s.handheld, s.pos, s.pct))
        = [("A", 1/8, 1, 1111/100)] ∧
      (sorted_df (nrecords (exportOf (nrecords exC9raw)))).map
          (fun s => (s.staff, s.handheld, s.pos, s.pct))
        = [("A", 3/25, 1, 1071/100)] ∧
      sorted_df (nrecords (exportOf (nrecords exC9raw))) ≠ sorted_df (nrecords exC9raw) := by
  have hfst : (sorted_df (nrecords exC9raw)).map (fun s => (s.staff, s.handheld, s.pos, s.pct))
      = [("A", 1/8, 1, 1111/100)] := by
    rw [sortedC9, List.map_cons, List.map_nil]
    show [((summaryFor (nrecords exC9raw) "A").staff, (summaryFor (nrecords exC9raw) "A").handheld,
      (summaryFor (nrecords exC9raw) "A").pos, (summaryFor (nrecords exC9raw) "A").pct)] = _
    have hpct : (summaryFor (nrecords exC9raw) "A").pct = 1111/100 := by
      show pct2 (sumFor (nrecords exC9raw) "A" "handheld")
          (sumFor (nrecords exC9raw) "A" "pos") = 1111/100
      rw [sumHC9, sumPC9, pct2_eighth]
    have hh : (summaryFor (nrecords exC9raw) "A").handheld = 1/8 := sumHC9
    have hpp : (summaryFor (nrecords exC9raw) "A").pos = 1 := sumPC9
    rw [hh, hpp, hpct]
    rfl
  have hsnd : (sorted_df (nrecords (exportOf (nrecords exC9raw)))).map
      (fun s => (s.staff, s.handheld, s.pos, s.pct)) = [("A", 3/25, 1, 1071/100)] := by
    rw [sortedE9, List.map_cons, List.map_nil]
    show [((summaryFor (nrecords (exportOf (nrecords exC9raw))) "A").staff,
      (summaryFor (nrecords (exportOf (nrecords exC9raw))) "A").handheld,
      (summaryFor (nrecords (exportOf (nrecords exC9raw))) "A").pos,
      (summaryFor (nrecords (exportOf (nrecords exC9raw))) "A").pct)] = _
    have hpct : (summaryFor (nrecords (exportOf (nrecords exC9raw))) "A").pct = 1071/100 := by
      show pct2 (sumFor (nrecords (exportOf (nrecords exC9raw))) "A" "handheld")
          (sumFor (nrecords (exportOf (nrecords exC9raw))) "A" "pos") = 1071/100
      rw [sumHE9, sumPE9, pct2_twelve]
    have hh : (summaryFor (nrecords (exportOf (nrecords exC9raw))) "A").handheld = 3/25 := sumHE9
    have hpp : (summaryFor (nrecords (exportOf (nrecords exC9raw))) "A").pos = 1 := sumPE9
    rw [hh, hpp, hpct]
    rfl
  refine ⟨hfst, hsnd, ?_⟩
  intro heq
  have h2 := congrArg (List.map (fun s => (s.staff, s.handheld, s.pos, s.pct))) heq
  rw [hfst, hsnd] at h2
  simp only [List.cons.injEq, Prod.mk.injEq, and_true] at h2
  exact absurd h2.2.1 (by norm_num)

lemma nC9w : nrecords exC9w = [⟨some "A", "handheld", 5/2⟩, ⟨some "A", "pos", 1⟩] := by
  simp [nrecords, exC9w, normalizeRow, coerceBase, chanHH, chanPOS]

lemma keysC9w : staffKeys (nrecords exC9w) = ["A"] := by
  rw [nC9w]; decide

lemma sumHC9w : sumFor (nrecords exC9w) "A" "handheld" = 5/2 := by
  rw [nC9w, sumFor_cons, sumFor_cons, sumFor_nil]; simp

lemma sumPC9w : sumFor (nrecords exC9w) "A" "pos" = 1 := by
  rw [nC9w, sumFor_cons, sumFor_cons, sumFor_nil]; simp

/-- Claim C9 witness: with two-decimal-exact totals (2.50 and 1.00) the
re-run on the export reproduces the per-staff rows exactly. -/
theorem C9_witness :
    sorted_df (nrecords (exportOf (nrecords exC9w))) = sorted_df (nrecords exC9w) := by
  apply C9_roundtrip
  intro k hk
  rw [keysC9w] at hk
  rcases List.mem_cons.mp hk with rfl | h
  · refine ⟨⟨?_, ?_, ?_⟩, ?_, ?_, ?_⟩
    · rw [sumHC9w]
      exact round2_eq_self _ 250 (by norm_num)
    · rw [sumHC9w]; norm_num
    · rw [sumHC9w]; norm_num
    · rw [sumPC9w]
      exact round2_eq_self 1 100 (by norm_num)
    · rw [sumPC9w]; norm_num
    · rw [sumPC9w]; norm_num
  · cases h
